import Mathlib

/-!
Formal model of the FullStackFastAPI backend (role-prompt generation service).

Python strings are embedded as `List Char` (Python `len` counts code points,
exactly as `List.length` does here).  Python floats used for scores and rates
are embedded as `ℚ` (all arithmetic performed on them in the modelled code is
exact decimal arithmetic).  JSON values are embedded as the inductive `JVal`;
Python `dict`s are insertion-ordered association lists, which is how CPython
dicts behave.  Wall-clock time is embedded as an integer clock that each
operation advances explicitly.  Character predicates (`str.isdigit`, `\w`,
whitespace) are modelled on the ASCII range used by the proofs' inputs.
-/

namespace FA

/-- Python `re.split` on a character class / `str.split(sep)` for a one-character
separator: split the character list at every separator occurrence, keeping
empty segments (CPython semantics: `"".split('-') == [""]`). -/
def splitOnPred (p : Char → Bool) : List Char → List (List Char)
  | [] => [[]]
  | c :: cs =>
    match splitOnPred p cs with
    | [] => [[]]
    | s :: rest => if p c then [] :: s :: rest else (c :: s) :: rest

/-- Python `str.isdigit` (ASCII digits; the repository's batch numbers are ASCII). -/
def pyIsDigit (s : List Char) : Bool := !s.isEmpty && s.all Char.isDigit

/-- Python `str.strip` with no argument: drop leading and trailing whitespace. -/
def pyStrip (s : List Char) : List Char :=
  ((s.dropWhile Char.isWhitespace).reverse.dropWhile Char.isWhitespace).reverse

/-- Python `sep.join(parts)` on character lists. -/
def pyJoin (sep : List Char) : List (List Char) → List Char
  | [] => []
  | [x] => x
  | x :: y :: rest => x ++ sep ++ pyJoin sep (y :: rest)

/-- JSON values, the embedding of the Python data handled by `json.loads` /
`json.dumps` and of plain Python dict/list/str/number trees.  Numbers are `ℚ`
(ints and the exact decimal floats appearing in the repository). -/
inductive JVal where
  | null
  | bool (b : Bool)
  | num (q : ℚ)
  | str (s : List Char)
  | arr (elems : List JVal)
  | obj (fields : List (String × JVal))

mutual

/-- Python `==` on JSON trees (structural equality). -/
def JVal.beq : JVal → JVal → Bool
  | .null, .null => true
  | .bool a, .bool b => decide (a = b)
  | .num a, .num b => decide (a = b)
  | .str a, .str b => decide (a = b)
  | .arr xs, .arr ys => JVal.beqList xs ys
  | .obj xs, .obj ys => JVal.beqObj xs ys
  | _, _ => false

/-- Elementwise `JVal.beq` on lists. -/
def JVal.beqList : List JVal → List JVal → Bool
  | [], [] => true
  | x :: xs, y :: ys => JVal.beq x y && JVal.beqList xs ys
  | _, _ => false

/-- Elementwise `JVal.beq` on key-value lists. -/
def JVal.beqObj : List (String × JVal) → List (String × JVal) → Bool
  | [], [] => true
  | (k1, v1) :: xs, (k2, v2) :: ys => decide (k1 = k2) && JVal.beq v1 v2 && JVal.beqObj xs ys
  | _, _ => false

end

/-- Python `d[k]` / `k in d` lookup on an insertion-ordered dict. -/
def jLookup (k : String) : List (String × JVal) → Option JVal
  | [] => none
  | (k2, v) :: rest => if k2 = k then some v else jLookup k rest

/-- Python `d[k] = v` for a key already present: the value is replaced and the
key keeps its position (CPython dict semantics). -/
def jSetKey (k : String) (v : JVal) : List (String × JVal) → List (String × JVal)
  | [] => []
  | (k2, w) :: rest => if k2 = k then (k2, v) :: rest else (k2, w) :: jSetKey k v rest

/-- Model of `target[key].extend(item for item in value if item not in target[key])`
from `sync_to_role_prompts._deep_merge_dict`.  The generator is consumed while
`extend` mutates the list, so each membership test sees the elements appended
so far; duplicates inside `source` are therefore suppressed as well. -/
def pyExtendDedup (target : List JVal) : List JVal → List JVal
  | [] => target
  | x :: xs =>
    if target.any (fun y => JVal.beq y x) then pyExtendDedup target xs
    else pyExtendDedup (target ++ [x]) xs

/-- Model of `sync_to_role_prompts._deep_merge_dict(target, source)` (the Python
function mutates `target` in place; the model returns the merged dict).
Keys of `source` are visited in order: a key present in `target` with dict
values on both sides merges recursively, list values on both sides extend with
duplicate suppression, any other clash overwrites; a fresh key is appended. -/
def _deep_merge_dict : List (String × JVal) → List (String × JVal) → List (String × JVal)
  | target, [] => target
  | target, (key, value) :: rest =>
    match jLookup key target with
    | some tv =>
      match tv, value with
      | .obj tobj, .obj sobj =>
          _deep_merge_dict (jSetKey key (.obj (_deep_merge_dict tobj sobj)) target) rest
      | .arr tl, .arr sl =>
          _deep_merge_dict (jSetKey key (.arr (pyExtendDedup tl sl)) target) rest
      | _, _ => _deep_merge_dict (jSetKey key value target) rest
    | none => _deep_merge_dict (target ++ [(key, value)]) rest
  termination_by _ source => sizeOf source

/-- Row of the `task_creat_role_prompt` table, restricted to the columns the
modelled code reads.  `role_name` stands for `task.role.name` reached through
the ORM relationship (`none` when the task has no linked role). -/
structure TaskCreatRolePrompt where
  id : ℤ
  task_name : Option (List Char)
  task_state : String
  role_id : ℤ
  role_name : Option (List Char)
  role_item_prompt : Option JVal
  task_cmd : Option JVal

/-- Model of `sync_to_role_prompts._extract_batch_number`: split the task name
on `-`; with at least 3 segments whose second is all digits, that second
segment is the batch number, otherwise the empty string. -/
def _extract_batch_number (task_name : List Char) : List Char :=
  let parts := splitOnPred (fun c => c = '-') task_name
  if 3 ≤ parts.length then
    let batch_number := parts.getD 1 []
    if pyIsDigit batch_number then batch_number else []
  else []

/-- Append a task to its batch group, creating the group on first use
(insertion-ordered dict of lists, as the Python `batch_groups` dict). -/
def addToBatchGroup (groups : List (List Char × List TaskCreatRolePrompt))
    (bn : List Char) (task : TaskCreatRolePrompt) :
    List (List Char × List TaskCreatRolePrompt) :=
  if groups.any (fun g => g.1 = bn) then
    groups.map (fun g => if g.1 = bn then (g.1, g.2 ++ [task]) else g)
  else groups ++ [(bn, [task])]

/-- Model of `sync_to_role_prompts._extract_and_group_by_batch`: tasks with a
missing or empty name, or whose name yields no batch number, are skipped; the
rest are grouped by batch number. -/
def _extract_and_group_by_batch (tasks : List TaskCreatRolePrompt) :
    List (List Char × List TaskCreatRolePrompt) :=
  tasks.foldl (fun batch_groups task =>
    match task.task_name with
    | none => batch_groups
    | some name =>
      if name = [] then batch_groups
      else
        let bn := _extract_batch_number name
        if bn = [] then batch_groups else addToBatchGroup batch_groups bn task) []

/-- Generic lookup in an insertion-ordered association list (Python `d[k]`). -/
def alookup {β : Type} (k : String) : List (String × β) → Option β
  | [] => none
  | (k2, v) :: rest => if k2 = k then some v else alookup k rest

/-- Python `del d[k]` on an association list (keys are unique in CPython dicts). -/
def aremove {β : Type} (k : String) : List (String × β) → List (String × β)
  | [] => []
  | (k2, v) :: rest => if k2 = k then rest else (k2, v) :: aremove k rest

/-- Python `d[k] = v`: replace in place when the key exists, else append. -/
def aset {β : Type} (k : String) (v : β) : List (String × β) → List (String × β)
  | [] => [(k, v)]
  | (k2, w) :: rest => if k2 = k then (k2, v) :: rest else (k2, w) :: aset k v rest

/-- The sentence-terminator class `[。！？.]` of `_split_sentences`. -/
def isSentTerm (c : Char) : Bool := c = '。' || c = '！' || c = '？' || c = '.'

/-- Model of `ContentProcessor._split_sentences`: `re.split` on the class
`[。！？.]`, strip each piece, drop empty pieces. -/
def _split_sentences (content : List Char) : List (List Char) :=
  ((splitOnPred isSentTerm content).map pyStrip).filter (fun s => s ≠ [])

/-- Python regex `\w` on the ASCII range (letters, digits, underscore); the
contents driving the proofs are ASCII. -/
def isWordCharAscii (c : Char) : Bool := c.isAlphanum || c = '_'

/-- Stable insertion of `x` after every element `y` with `le y x` (ties keep
the earlier element first). -/
def insertLe {α : Type} (le : α → α → Bool) (x : α) : List α → List α
  | [] => [x]
  | y :: ys => if le y x then y :: insertLe le x ys else x :: y :: ys

/-- Stable sort by `le` (Python `sorted` is a stable sort); written as a
structural insertion sort so that the kernel can evaluate it. -/
def sortLe {α : Type} (le : α → α → Bool) (l : List α) : List α :=
  l.foldl (fun acc x => insertLe le x acc) []

/-- Lexicographic comparison of character lists by code point (Python string
`<=`). -/
def lexLeChars : List Char → List Char → Bool
  | [], _ => true
  | _ :: _, [] => false
  | a :: as, b :: bs => if a < b then true else if b < a then false else lexLeChars as bs

/-- Model of `ContentProcessor._generate_sentence_fingerprint`: lowercase,
strip non-word non-space characters, split into words, sort the distinct words
and concatenate.  The Python code md5-hashes this concatenation; the hash is a
content address, modelled as the (injective) identity on its input. -/
def _generate_sentence_fingerprint (sentence : List Char) : List Char :=
  let normalized := (sentence.map Char.toLower).filter
    (fun c => isWordCharAscii c || c.isWhitespace)
  let words := (splitOnPred Char.isWhitespace normalized).filter (fun w => w ≠ [])
  let word_set := words.dedup
  pyJoin [] (sortLe lexLeChars word_set)

/-- Model of `ContentProcessor.remove_duplicates`: keep the first sentence for
each fingerprint, join the survivors with single spaces. -/
def remove_duplicates (content : List Char) : List Char :=
  let sentences := _split_sentences content
  let unique_sentences := (sentences.foldl
    (fun (acc : List (List Char) × List (List Char)) sentence =>
      let fingerprint := _generate_sentence_fingerprint sentence
      if fingerprint ∈ acc.2 then acc
      else (acc.1 ++ [sentence], acc.2 ++ [fingerprint])) ([], [])).1
  pyJoin [' '] unique_sentences

/-- Model of `ContentProcessor._has_complete_structure`: at least 50 characters
and at least one character of `'。！？.,!?'` (note: the set includes the ASCII
comma). -/
def _has_complete_structure (content : List Char) : Bool :=
  decide (50 ≤ content.length) &&
    content.any (fun c => ['。', '！', '？', '.', ',', '!', '?'].contains c)

/-- Model of `ContentProcessor.validate_quality`: start from 1.0, subtract the
length penalty, the repetition penalty and the structure penalty, clamp at 0. -/
def validate_quality (content : List Char) : ℚ :=
  let quality_score : ℚ := 1
  let quality_score :=
    if content.length < 100 then quality_score - 3/10
    else if 2000 < content.length then quality_score - 2/10
    else quality_score
  let sentences := _split_sentences content
  let quality_score :=
    if 0 < sentences.length then
      let repetition_rate : ℚ := 1 - ((sentences.dedup.length : ℚ) / (sentences.length : ℚ))
      quality_score - repetition_rate * (3/10)
    else quality_score
  let quality_score :=
    if _has_complete_structure content then quality_score else quality_score - 2/10
  max 0 quality_score

/-- Entry of a category list built by `_categorize_by_template_item`
(the Python dict `{'task_id', 'task_name', 'content', 'confidence',
'tokens_used'}`). -/
structure CategoryItem where
  task_id : ℤ
  task_name : Option (List Char)
  content : List Char
  confidence : ℚ
  tokens_used : ℚ

instance : Inhabited CategoryItem := ⟨⟨0, none, [], 0, 0⟩⟩

/-- Model of `ResultAggregator._smart_merge_descriptions`: strip each content,
skip empty and already-collected contents, join with blank lines. -/
def _smart_merge_descriptions (items : List CategoryItem) : List Char :=
  let contents := items.foldl (fun contents item =>
    let content := pyStrip item.content
    if content ≠ [] ∧ content ∉ contents then contents ++ [content] else contents) []
  pyJoin ['\n', '\n'] contents

/-- Model of `ResultAggregator._combine_all_content`: strip each content, skip
only empty contents (no deduplication), join with blank lines. -/
def _combine_all_content (items : List CategoryItem) : List Char :=
  let contents := items.foldl (fun contents item =>
    let content := pyStrip item.content
    if content ≠ [] then contents ++ [content] else contents) []
  pyJoin ['\n', '\n'] contents

/-- Python `sorted(items, key=lambda x: x['confidence'], reverse=True)`:
a stable descending sort by confidence (`List.mergeSort` is stable). -/
def sortByConfidenceDesc (items : List CategoryItem) : List CategoryItem :=
  sortLe (fun a b => decide (b.confidence ≤ a.confidence)) items

/-- Model of `ResultAggregator._merge_category_content`: a single item is
returned as-is; otherwise sort by confidence and dispatch on the category
name (highest-confidence pick, deduplicating merge, or plain merge). -/
def _merge_category_content (category : String) (items : List CategoryItem) : List Char :=
  if items.length = 1 then items.headI.content
  else
    let sorted_items := sortByConfidenceDesc items
    if category ∈ ["基本资料", "角色背景", "基础信息"] then
      sorted_items.headI.content
    else if category ∈ ["技能描述", "人物关系", "详细描述"] then
      _smart_merge_descriptions sorted_items
    else
      _combine_all_content sorted_items

/-- Model of `ResultAggregator._get_template_item_name`: a falsy id (None or 0)
yields None, otherwise the placeholder name `模板条目_<id>` (ids are integers). -/
def _get_template_item_name (template_item_id : Option JVal) : Option String :=
  match template_item_id with
  | some (.num n) => if n = 0 then none else some ("模板条目_" ++ toString n)
  | _ => none

/-- Python truthiness of `task.role_item_prompt` (a JSON dict: falsy when
missing or empty). -/
def ripTruthy (task : TaskCreatRolePrompt) : Bool :=
  match task.role_item_prompt with
  | some (.obj fields) => !fields.isEmpty
  | _ => false

/-- Value of `task.role_item_prompt.get('generated_content')` when it is a
non-empty string (the shape the executor writes), else `none`. -/
def taskGeneratedContent (task : TaskCreatRolePrompt) : Option (List Char) :=
  match task.role_item_prompt with
  | some (.obj fields) =>
    match alookup "generated_content" fields with
    | some (.str s) => if s = [] then none else some s
    | _ => none
  | _ => none

/-- Value of `task.role_item_prompt.get('confidence', 0.0)`. -/
def taskConfidence (task : TaskCreatRolePrompt) : ℚ :=
  match task.role_item_prompt with
  | some (.obj fields) =>
    match alookup "confidence" fields with
    | some (.num q) => q
    | _ => 0
  | _ => 0

/-- Value of `task.role_item_prompt.get('tokens_used', 0)`. -/
def taskTokensUsed (task : TaskCreatRolePrompt) : ℚ :=
  match task.role_item_prompt with
  | some (.obj fields) =>
    match alookup "tokens_used" fields with
    | some (.num q) => q
    | _ => 0
  | _ => 0

/-- Value of `task.task_cmd.get('templateItemId') if task.task_cmd else None`
(an empty or missing `task_cmd` dict is falsy). -/
def taskTemplateItemId (task : TaskCreatRolePrompt) : Option JVal :=
  match task.task_cmd with
  | some (.obj fields) => if fields.isEmpty then none else alookup "templateItemId" fields
  | _ => none

/-- Model of `ResultAggregator._categorize_by_template_item`: tasks with a
falsy `role_item_prompt` or falsy `generated_content` are skipped; the rest
are appended to the category named by their template item (default
`其他内容`), in an insertion-ordered dict of lists. -/
def _categorize_by_template_item (tasks : List TaskCreatRolePrompt) :
    List (String × List CategoryItem) :=
  tasks.foldl (fun categories task =>
    if !(ripTruthy task) then categories
    else
      match taskGeneratedContent task with
      | none => categories
      | some content =>
        let template_item_name :=
          (_get_template_item_name (taskTemplateItemId task)).getD "其他内容"
        let item : CategoryItem :=
          { task_id := task.id, task_name := task.task_name, content := content,
            confidence := taskConfidence task, tokens_used := taskTokensUsed task }
        match alookup template_item_name categories with
        | some items => aset template_item_name (items ++ [item]) categories
        | none => categories ++ [(template_item_name, [item])]) []

/-- Section header `## <name>\n\n<content>` built by `_build_final_content`. -/
def mkSection (name : String) (content : List Char) : List Char :=
  "## ".data ++ name.data ++ ['\n', '\n'] ++ content

/-- Model of `ResultAggregator._build_final_content`: emit the non-blank
sections following the fixed order list (removing each as it is visited), then
the remaining sections in insertion order, joined by blank lines. -/
def _build_final_content (sections : List (String × List Char)) : List Char :=
  if sections.isEmpty then []
  else
    let section_order : List String :=
      ["基本资料", "基础信息", "角色背景",
       "技能描述", "能力描述", "特殊技能",
       "人物关系", "关系网络", "社交关系",
       "详细描述", "其他内容"]
    let st := section_order.foldl
      (fun (st : List (List Char) × List (String × List Char)) name =>
        match alookup name st.2 with
        | some content =>
          if pyStrip content ≠ [] then (st.1 ++ [mkSection name content], aremove name st.2)
          else (st.1, aremove name st.2)
        | none => st) ([], sections)
    let final_parts := st.2.foldl
      (fun parts (nc : String × List Char) =>
        if pyStrip nc.2 ≠ [] then parts ++ [mkSection nc.1 nc.2] else parts) st.1
    pyJoin ['\n', '\n'] final_parts

/-- Model of `ResultAggregator._template_based_aggregation`: categorize, merge
each multi-item category, build the final sectioned content. -/
def _template_based_aggregation (tasks : List TaskCreatRolePrompt) : List Char :=
  let categorized_content := _categorize_by_template_item tasks
  let aggregated_sections := categorized_content.map (fun ci =>
    if ci.2.length = 1 then (ci.1, ci.2.headI.content)
    else (ci.1, _merge_category_content ci.1 ci.2))
  _build_final_content aggregated_sections

/-- Model of `ResultAggregator._aggregate_content`: no task gives the empty
string, a single task gives its `generated_content` (default `''`), several
tasks go through template-based aggregation. -/
def _aggregate_content (tasks : List TaskCreatRolePrompt) : List Char :=
  match tasks with
  | [] => []
  | [task] =>
    match task.role_item_prompt with
    | some (.obj fields) =>
      match alookup "generated_content" fields with
      | some (.str s) => s
      | _ => []
    | _ => []
  | _ => _template_based_aggregation tasks

/-- Row of the `role_prompt` table (columns the modelled code touches). -/
structure RolePrompt where
  id : ℤ
  role_id : ℤ
  version : ℤ
  user_prompt : JVal
  is_active : String

/-- Maximum of a list of integers (SQL `max(...)`, `NULL` on an empty set). -/
def listMaxZ : List ℤ → Option ℤ
  | [] => none
  | x :: xs =>
    match listMaxZ xs with
    | none => some x
    | some m => some (max x m)

/-- Model of `ResultAggregator._get_latest_version`: SQL
`select max(version) where role_id = :role_id`. -/
def _get_latest_version (db : List RolePrompt) (role_id : ℤ) : Option ℤ :=
  listMaxZ ((db.filter (fun r => r.role_id == role_id)).map (fun r => r.version))

/-- Python `latest_version or 0` (`None` and `0` are both falsy, giving 0). -/
def pyOrZero : Option ℤ → ℤ
  | none => 0
  | some v => if v = 0 then 0 else v

/-- Model of `ResultAggregator._extract_sections`: re-parse the `## ` headers
of the formatted content into a section map. -/
def _extract_sections (content : List Char) : List (String × JVal) :=
  let step := fun (st : List (String × JVal) × Option (List Char) × List (List Char))
      (rawLine : List Char) =>
    let line := pyStrip rawLine
    if line.take 3 = "## ".data then
      let flushed :=
        match st.2.1 with
        | some sec =>
          if st.2.2 ≠ [] then
            aset (String.mk sec) (.str (pyStrip (pyJoin ['\n'] st.2.2))) st.1
          else st.1
        | none => st.1
      (flushed, some (pyStrip (line.drop 3)), [])
    else
      match st.2.1 with
      | some _ => (st.1, st.2.1, st.2.2 ++ [line])
      | none => st
  let st := (splitOnPred (fun c => c = '\n') content).foldl step ([], none, [])
  match st.2.1 with
  | some sec =>
    if st.2.2 ≠ [] then
      aset (String.mk sec) (.str (pyStrip (pyJoin ['\n'] st.2.2))) st.1
    else st.1
  | none => st.1

/-- Next autoincrement id for the `role_prompt` table. -/
def nextRolePromptId (db : List RolePrompt) : ℤ :=
  (listMaxZ (db.map (fun r => r.id))).getD 0 + 1

/-- Model of `ResultAggregator._create_role_prompt` followed by
`_deactivate_old_versions`: insert the new row with version
`(max existing version or 0) + 1` and `is_active = "Y"`, then set
`is_active = "N"` on every row of the role with a different version.
The `generated_at` wall-clock timestamp of `user_prompt` is outside the
model. -/
def _create_role_prompt (db : List RolePrompt) (role_id : ℤ) (content : List Char)
    (source_tasks : List TaskCreatRolePrompt) (quality_score : ℚ) :
    RolePrompt × List RolePrompt :=
  let latest_version := _get_latest_version db role_id
  let new_version := pyOrZero latest_version + 1
  let user_prompt : JVal := .obj
    [("version", .num new_version),
     ("aggregation_info", .obj
       [("strategy", .str "template_based".data),
        ("source_task_count", .num (source_tasks.length : ℚ)),
        ("source_task_ids", .arr (source_tasks.map (fun t => .num (t.id : ℚ)))),
        ("quality_score", .num quality_score)]),
     ("content", .obj
       [("formatted", .str content),
        ("raw_sections", .obj (_extract_sections content)),
        ("metadata", .obj
          [("total_tokens", .num
             (((source_tasks.filter ripTruthy).map taskTokensUsed).sum)),
           ("avg_confidence", .num
             ((((source_tasks.filter ripTruthy).map taskConfidence).sum) /
               (source_tasks.length : ℚ)))])])]
  let role_prompt : RolePrompt :=
    { id := nextRolePromptId db, role_id := role_id, version := new_version,
      user_prompt := user_prompt, is_active := "Y" }
  let db2 := (db ++ [role_prompt]).map (fun r =>
    if r.role_id = role_id ∧ r.version ≠ new_version then { r with is_active := "N" } else r)
  (role_prompt, db2)

/-- Error payloads of `AggregationResult.error_result` (the Python code formats
these into message strings; the payload carries the same data). -/
inductive AggError where
  | roleTasksNotComplete (pending_count : ℕ)
  | noCompletedTasks
  | qualityTooLow (score : ℚ)

/-- Model of the `AggregationResult` dataclass. -/
structure AggregationResult where
  success : Bool
  role_id : ℤ
  role_prompt_id : Option ℤ
  aggregated_content : Option (List Char)
  quality_score : ℚ
  task_count : ℕ
  error : Option AggError

/-- Model of `ResultAggregator.aggregate_role_results` over the task table
(given in `created_at` order, as the completed-task query sorts) and the
`role_prompt` table: completion check, completed-task fetch, aggregation,
deduplication, quality gate, then the versioned write. -/
def aggregate_role_results (tasks : List TaskCreatRolePrompt)
    (db : List RolePrompt) (role_id : ℤ) : AggregationResult × List RolePrompt :=
  let pending_count := (tasks.filter (fun t =>
    t.role_id == role_id &&
      (t.task_state == "P" || t.task_state == "Q" || t.task_state == "R"))).length
  if pending_count ≠ 0 then
    ({ success := false, role_id := role_id, role_prompt_id := none,
       aggregated_content := none, quality_score := 0, task_count := 0,
       error := some (.roleTasksNotComplete pending_count) }, db)
  else
    let completed_tasks := tasks.filter (fun t =>
      t.role_id == role_id && t.task_state == "C" && t.role_item_prompt.isSome)
    if completed_tasks.isEmpty then
      ({ success := false, role_id := role_id, role_prompt_id := none,
         aggregated_content := none, quality_score := 0, task_count := 0,
         error := some .noCompletedTasks }, db)
    else
      let aggregated_content := _aggregate_content completed_tasks
      let processed_content := remove_duplicates aggregated_content
      let quality_score := validate_quality processed_content
      if quality_score < 1/2 then
        ({ success := false, role_id := role_id, role_prompt_id := none,
           aggregated_content := none, quality_score := 0, task_count := 0,
           error := some (.qualityTooLow quality_score) }, db)
      else
        let rp := _create_role_prompt db role_id processed_content completed_tasks quality_score
        ({ success := true, role_id := role_id, role_prompt_id := some rp.1.id,
           aggregated_content := some processed_content,
           quality_score := quality_score, task_count := completed_tasks.length,
           error := none }, rp.2)

/-- Concrete scenario: a role whose only completed task carries a 20-character
`generated_content` (the string `abcdefghij.klmnopqrs`). -/
def task20 : TaskCreatRolePrompt :=
  { id := 1, task_name := some "任务A".data, task_state := "C", role_id := 7,
    role_name := none,
    role_item_prompt := some (.obj [("generated_content", .str "abcdefghij.klmnopqrs".data)]),
    task_cmd := none }

/-- Value-level combination `_deep_merge_dict` performs at a key present on
both sides (used to state its characterization): dicts merge recursively,
lists extend with duplicate suppression, anything else is overwritten by the
source value. -/
def mergeVal : JVal → JVal → JVal
  | .obj tobj, .obj sobj => .obj (_deep_merge_dict tobj sobj)
  | .arr tl, .arr sl => .arr (pyExtendDedup tl sl)
  | _, sv => sv

/-- States of the circuit breaker (`'CLOSED'`, `'OPEN'`, `'HALF_OPEN'`). -/
inductive BreakerState where
  | CLOSED
  | OPEN
  | HALF_OPEN
  deriving DecidableEq

/-- Model of `external_api_client.CircuitBreaker` (its mutable fields; all its
methods run under one lock, so each method is a single atomic step). -/
structure CircuitBreaker where
  failure_threshold : ℕ
  timeout : ℤ
  failure_count : ℕ
  last_failure_time : Option ℤ
  state : BreakerState

/-- Model of `CircuitBreaker.is_open` at wall-clock time `now`: while `OPEN`,
admit (transitioning to `HALF_OPEN`) only when strictly more than `timeout`
seconds have passed since the last failure.  The `none` branch is unreachable
in reachable states (`OPEN` is only ever entered by `record_failure`, which
sets the time; Python would raise a `TypeError` on `None`). -/
def CircuitBreaker.is_open (b : CircuitBreaker) (now : ℤ) : Bool × CircuitBreaker :=
  if b.state = .OPEN then
    match b.last_failure_time with
    | some lf => if b.timeout < now - lf then (false, { b with state := .HALF_OPEN }) else (true, b)
    | none => (true, b)
  else (false, b)

/-- Model of `CircuitBreaker.record_success`: reset the count, close the breaker. -/
def CircuitBreaker.record_success (b : CircuitBreaker) : CircuitBreaker :=
  { b with failure_count := 0, state := .CLOSED }

/-- Model of `CircuitBreaker.record_failure` at time `now`: bump the count,
remember the failure time, open the breaker at the threshold. -/
def CircuitBreaker.record_failure (b : CircuitBreaker) (now : ℤ) : CircuitBreaker :=
  let c := b.failure_count + 1
  { b with failure_count := c, last_failure_time := some now,
           state := if b.failure_threshold ≤ c then .OPEN else b.state }

/-- Model of `external_api_client.RateLimiter` (the request-timestamp window). -/
structure RateLimiter where
  max_requests : ℕ
  requests : List ℤ

/-- The purge `[t for t in requests if now - t < 60]`. -/
def purgeOld (now : ℤ) (requests : List ℤ) : List ℤ :=
  requests.filter (fun t => decide (now - t < 60))

/-- Minimum of a list of integers (Python `min(list)`, `None` on the empty
list, where Python raises `ValueError`). -/
def listMinZ : List ℤ → Option ℤ
  | [] => none
  | x :: xs =>
    match listMinZ xs with
    | none => some x
    | some m => some (min x m)

/-- Model of `RateLimiter.acquire` entered at time `now` (the method body runs
entirely under the limiter's lock, including the sleep): purge, and at capacity
sleep `60 - (now - oldest) + 1` seconds (modelled as exactly that long) and
re-purge, then record the caller's own timestamp.  Returns the updated limiter
and the admission time.  The `none` branch is reachable only with
`max_requests = 0`, where Python's `min([])` raises. -/
def RateLimiter.acquire (rl : RateLimiter) (now : ℤ) : RateLimiter × ℤ :=
  let requests := purgeOld now rl.requests
  if rl.max_requests ≤ requests.length then
    match listMinZ requests with
    | some oldest_request =>
      let wait_time := 60 - (now - oldest_request) + 1
      let now2 := now + wait_time
      let requests2 := purgeOld now2 requests
      ({ rl with requests := requests2 ++ [now2] }, now2)
    | none => ({ rl with requests := [now] }, now)
  else
    ({ rl with requests := requests ++ [now] }, now)

/-- State of a driven sequence of `acquire` calls: the limiter, the (ghost)
history of admission times, and the current clock. -/
structure LimiterRun where
  limiter : RateLimiter
  hist : List ℤ
  now : ℤ

/-- One acquisition, entered `δ` seconds after the previous one finished. -/
def limiterStep (s : LimiterRun) (δ : ℕ) : LimiterRun :=
  let t := s.now + (δ : ℤ)
  let ra := s.limiter.acquire t
  { limiter := ra.1, hist := s.hist ++ [ra.2], now := ra.2 }

/-- Drive a fresh limiter with `max_requests` capacity through a sequence of
acquisitions separated by the given delays. -/
def limiterRun (max_requests : ℕ) (deltas : List ℕ) : LimiterRun :=
  deltas.foldl limiterStep { limiter := { max_requests := max_requests, requests := [] }, hist := [], now := 0 }

/-- Number of admissions falling in the trailing 60-second interval
`(x - 60, x]` (the window `now - t < 60` the code uses). -/
def windowCount (hist : List ℤ) (x : ℤ) : ℕ :=
  (hist.filter (fun y => decide (x - 60 < y) && decide (y ≤ x))).length

/-- Model of the uniform `ApiResponse` envelope. -/
structure ApiResponse where
  success : Bool
  data : Option JVal
  error : Option String
  error_code : Option String
  duration : ℤ
  tokens_used : ℤ
  api_version : Option String

/-- Hex digest of `hashlib.md5` over the canonical JSON dump of the command.
It serves purely as a content address, so it is modelled as the (injective)
identity on its input. -/
def md5Hex (s : String) : String := s

/-- Model of `RequestCache._generate_cache_key`: commands are represented by
their canonical serialization `json.dumps(command, sort_keys=True)`. -/
def _generate_cache_key (task_id : ℤ) (command : String) : String :=
  "api_cache:task_" ++ toString task_id ++ ":" ++ md5Hex command

/-- Model of `external_api_client.RequestCache` over redis `setex`/`get`
semantics: each entry carries its expiry time. -/
structure RequestCache where
  ttl : ℕ
  entries : List (String × ℤ × ApiResponse)

/-- Model of `RequestCache.get`: return the entry under the key while it has
not expired. -/
def RequestCache.get (c : RequestCache) (task_id : ℤ) (command : String) (now : ℤ) :
    Option ApiResponse :=
  match alookup (_generate_cache_key task_id command) c.entries with
  | some entry => if now < entry.1 then some entry.2 else none
  | none => none

/-- Model of `RequestCache.set`: only successful responses are stored (their
error fields are dropped by the cached payload), for `ttl` seconds. -/
def RequestCache.set (c : RequestCache) (task_id : ℤ) (command : String)
    (response : ApiResponse) (now : ℤ) : RequestCache :=
  if response.success then
    { c with entries := aset (_generate_cache_key task_id command)
                          (now + (c.ttl : ℤ), { response with error := none, error_code := none })
                          c.entries }
  else c

/-- Model of `external_api_client.ExternalApiClient`: the limiter, the breaker,
the optional cache (present only when the config carries a redis client) and
the clock. -/
structure ExternalApiClient where
  rate_limiter : RateLimiter
  circuit_breaker : CircuitBreaker
  cache : Option RequestCache
  now : ℤ

/-- The cache lookup step of `call_generate_api` (step 1 of the call contract). -/
def cacheLookup (client : ExternalApiClient) (task_id : ℤ) (command : String)
    (now : ℤ) : Option ApiResponse :=
  match client.cache with
  | some c => c.get task_id command now
  | none => none

/-- Model of `ExternalApiClient.call_generate_api`, entered `δ` seconds after
the client's previous operation.  `api_result` stands for the outcome the
provider call `_make_api_call` would produce (the network is external to the
model; the provider call itself is modelled as instantaneous).  Flow: cache
lookup, breaker admission check (fail fast with `CIRCUIT_BREAKER_OPEN`),
rate-limiter acquisition (may sleep), provider call, then breaker bookkeeping
and cache population. -/
def call_generate_api (client : ExternalApiClient) (task_id : ℤ) (command : String)
    (δ : ℕ) (api_result : ApiResponse) : ExternalApiClient × ApiResponse :=
  let start := client.now + (δ : ℤ)
  match cacheLookup client task_id command start with
  | some resp => ({ client with now := start }, { resp with duration := 0 })
  | none =>
    let ob := (client.circuit_breaker.is_open start)
    if ob.1 then
      ({ client with circuit_breaker := ob.2, now := start },
       { success := false, data := none, error := some "API服务熔断中，请稍后重试",
         error_code := some "CIRCUIT_BREAKER_OPEN", duration := 0, tokens_used := 0,
         api_version := none })
    else
      let ra := client.rate_limiter.acquire start
      let response := { api_result with duration := ra.2 - start }
      if response.success then
        let cache2 := match client.cache with
          | some c => some (c.set task_id command response ra.2)
          | none => none
        ({ rate_limiter := ra.1, circuit_breaker := ob.2.record_success,
           cache := cache2, now := ra.2 }, response)
      else
        ({ rate_limiter := ra.1, circuit_breaker := ob.2.record_failure ra.2,
           cache := client.cache, now := ra.2 }, response)

/-- Model of the gateway invocation inside
`SimpleTaskExecutor._call_ai_api_enhanced` (lines 292-302): the executing
task's row is available but the call passes the constant `task_id=1`.  The
subsequent extraction of `generated_content` from the response is orthogonal
to the gateway interaction. -/
def _call_ai_api_enhanced (client : ExternalApiClient)
    (executing_task : TaskCreatRolePrompt) (command : String) (δ : ℕ)
    (api_result : ApiResponse) : ExternalApiClient × ApiResponse :=
  call_generate_api client 1 command δ api_result

/-- Batch lifecycle states of `batch_manager.BatchStatus`. -/
inductive BatchStatus where
  | PENDING
  | RUNNING
  | PAUSED
  | COMPLETED
  | FAILED
  | CANCELLED
  deriving DecidableEq

/-- Task states of `batch_manager.TaskStatus` (stored as one-letter codes). -/
inductive TaskState where
  | PENDING
  | QUEUED
  | RUNNING
  | COMPLETED
  | FAILED
  | RETRYING
  | CANCELLED
  deriving DecidableEq

/-- Model of the `batch_manager.BatchExecution` dataclass (the fields the
modelled statistics code touches). -/
structure BatchExecution where
  total_tasks : ℕ
  queued_tasks : ℕ
  running_tasks : ℕ
  completed_tasks : ℕ
  failed_tasks : ℕ
  cancelled_tasks : ℕ
  average_duration : ℚ
  success_rate : ℚ
  throughput : ℚ
  status : BatchStatus
  started_at : Option ℤ
  completed_at : Option ℤ

/-- Model of `BatchExecution.get_progress`: finished fraction of all tasks as
a percentage, `0.0` for an empty batch. -/
def BatchExecution.get_progress (b : BatchExecution) : ℚ :=
  if b.total_tasks = 0 then 0
  else (((b.completed_tasks + b.failed_tasks + b.cancelled_tasks : ℕ) : ℚ) / (b.total_tasks : ℚ)) * 100

/-- Model of `BatchExecution.get_active_tasks`. -/
def BatchExecution.get_active_tasks (b : BatchExecution) : ℕ :=
  b.queued_tasks + b.running_tasks

/-- One iteration of the statistics loop of
`BatchManager._refresh_batch_statistics` over a grouped statistics row
`(state, count, avg_duration)`: reload the matching counter, and for completed
rows with a truthy average duration (note `if avg_dur:` also skips an average
of exactly 0) accumulate the duration total. -/
def _refresh_stat_step (acc : BatchExecution × ℚ × ℕ)
    (stat : TaskState × ℕ × Option ℚ) : BatchExecution × ℚ × ℕ :=
  match stat with
  | (.QUEUED, count, _) => ({ acc.1 with queued_tasks := count }, acc.2)
  | (.RUNNING, count, _) => ({ acc.1 with running_tasks := count }, acc.2)
  | (.COMPLETED, count, avg_dur) =>
    let b := { acc.1 with completed_tasks := count }
    match avg_dur with
    | some d =>
      if d ≠ 0 then (b, acc.2.1 + d * (count : ℚ), acc.2.2 + count)
      else (b, acc.2)
    | none => (b, acc.2)
  | (.FAILED, count, _) => ({ acc.1 with failed_tasks := count }, acc.2)
  | (.CANCELLED, count, _) => ({ acc.1 with cancelled_tasks := count }, acc.2)
  | (_, _, _) => acc

/-- Model of `BatchManager._refresh_batch_statistics` applied to the grouped
per-state statistics rows the SQL query returns, at wall-clock time `now`:
reset the per-state counters, reload them from the rows, then recompute
average duration, success rate and throughput (each only when its denominator
is positive), and close out a `RUNNING` batch with no active tasks. -/
def _refresh_batch_statistics (batch : BatchExecution)
    (stats : List (TaskState × ℕ × Option ℚ)) (now : ℤ) : BatchExecution :=
  let b0 := { batch with queued_tasks := 0, running_tasks := 0, completed_tasks := 0,
                         failed_tasks := 0, cancelled_tasks := 0 }
  let st := stats.foldl _refresh_stat_step (b0, 0, 0)
  let b1 := st.1
  let total_duration := st.2.1
  let completed_count := st.2.2
  let b2 : BatchExecution := if 0 < completed_count then
      { b1 with average_duration := total_duration / (completed_count : ℚ) }
    else b1
  let finished_tasks := b2.completed_tasks + b2.failed_tasks
  let b3 : BatchExecution := if 0 < finished_tasks then
      { b2 with success_rate := ((b2.completed_tasks : ℚ) / (finished_tasks : ℚ)) * 100 }
    else b2
  let b4 : BatchExecution := match batch.started_at with
    | some s =>
      let elapsed_minutes : ℚ := ((now - s : ℤ) : ℚ) / 60
      if 0 < elapsed_minutes then
        { b3 with throughput := (b3.completed_tasks : ℚ) / elapsed_minutes }
      else b3
    | none => b3
  if b4.get_active_tasks = 0 ∧ b4.status = BatchStatus.RUNNING then
    { b4 with status := .COMPLETED, completed_at := some now }
  else b4

/-- Row of the `roles` table (columns `update_role` touches). -/
structure Role where
  id : ℤ
  name : List Char
  create_from : Option (List Char)
  has_prompts : Option (List Char)
  ip_id : ℤ

/-- A `RoleUpdate` PATCH payload: `none` means the field was omitted from the
request, so `model_dump(exclude_unset=True)` drops it.  For the nullable
columns an explicitly supplied value may itself be null.  (An explicit null
for the non-nullable `name` column is excluded: it would violate the table's
NOT NULL constraint, and pydantic's `min_length=1` already rejects `""`.) -/
structure RoleUpdate where
  name : Option (List Char)
  create_from : Option (Option (List Char))
  has_prompts : Option (Option (List Char))
  ip_id : Option ℤ

/-- HTTP errors `update_role` can raise. -/
inductive HttpError where
  | notFound404
  | badRequest400
  | conflict409
  deriving DecidableEq

/-- The database visible to the roles route: the `roles` rows and the ids of
existing `roles_dir` rows. -/
structure RolesDb where
  roles : List Role
  role_dir_ids : List ℤ

/-- Model of `db_role.sqlmodel_update(role_in.model_dump(exclude_unset=True))`:
every field present in the payload overwrites the stored column, every omitted
field is absent from the dump and left untouched. -/
def sqlmodel_update (r : Role) (u : RoleUpdate) : Role :=
  { r with
    name := u.name.getD r.name,
    create_from := u.create_from.getD r.create_from,
    has_prompts := u.has_prompts.getD r.has_prompts,
    ip_id := u.ip_id.getD r.ip_id }

/-- Model of the `update_role` PATCH route: 404 when the role does not exist,
400 when a truthy, changed `ip_id` names no existing directory (`0` is falsy
and skips the check, as in Python), 409 when a truthy, changed `name` collides
with an existing role, else apply the partial update and store it. -/
def update_role (db : RolesDb) (role_id : ℤ) (role_in : RoleUpdate) :
    Except HttpError (Role × RolesDb) :=
  match db.roles.find? (fun r => r.id == role_id) with
  | none => .error .notFound404
  | some db_role =>
    let ip_bad := match role_in.ip_id with
      | some v => decide (v ≠ 0) && decide (v ≠ db_role.ip_id) && !(db.role_dir_ids.contains v)
      | none => false
    if ip_bad then .error .badRequest400
    else
      let name_conflict := match role_in.name with
        | some n => decide (n ≠ []) && decide (n ≠ db_role.name) &&
            db.roles.any (fun r => decide (r.name = n))
        | none => false
      if name_conflict then .error .conflict409
      else
        let updated := sqlmodel_update db_role role_in
        .ok (updated, { db with roles := db.roles.map (fun r => if r.id = role_id then updated else r) })

/-- Concrete batch of claim C7: 10 tasks, 6 completed, 2 failed, none
cancelled, currently running. -/
def batch10 : BatchExecution :=
  { total_tasks := 10, queued_tasks := 0, running_tasks := 0, completed_tasks := 6,
    failed_tasks := 2, cancelled_tasks := 0, average_duration := 0, success_rate := 0,
    throughput := 0, status := .RUNNING, started_at := none, completed_at := none }

/-- Grouped statistics rows matching `batch10`: 6 completed, 2 failed. -/
def stats10 : List (TaskState × ℕ × Option ℚ) :=
  [(.COMPLETED, 6, none), (.FAILED, 2, none)]

/-- Concrete role row of claim C8. -/
def roleAlice : Role :=
  { id := 1, name := "Alice".data, create_from := none, has_prompts := none, ip_id := 2 }

/-- A one-role database whose directory 2 exists. -/
def rolesDb0 : RolesDb := { roles := [roleAlice], role_dir_ids := [2] }

/-- The PATCH payload of claim C8: `create_from` supplied, `name` omitted. -/
def updCreateFrom : RoleUpdate :=
  { name := none, create_from := some (some "api".data), has_prompts := none, ip_id := none }

/-- Two category items with identical content (claim C9's counterexample). -/
def itemsDup : List CategoryItem :=
  [⟨1, none, "abc".data, 0, 0⟩, ⟨2, none, "abc".data, 0, 0⟩]

/-- Two category items with distinct contents (claim C9's witness). -/
def itemsDistinct : List CategoryItem :=
  [⟨1, none, "abc".data, 0, 0⟩, ⟨2, none, "xyz".data, 0, 0⟩]

/-- A freshly constructed gateway client with the default tuning and a redis
cache configured (claim C10). -/
def freshClientWithCache : ExternalApiClient :=
  { rate_limiter := { max_requests := 60, requests := [] },
    circuit_breaker := { failure_threshold := 5, timeout := 60, failure_count := 0,
                         last_failure_time := none, state := .CLOSED },
    cache := some { ttl := 3600, entries := [] }, now := 0 }

/-- A successful provider outcome carrying payload `d`. -/
def successResponse (d : Option JVal) : ApiResponse :=
  { success := true, data := d, error := none, error_code := none, duration := 0,
    tokens_used := 0, api_version := none }

/-!
Decidability of the model's equalities (JSON trees and table rows), so that
concrete runs of the model can be evaluated inside proofs.
-/

mutual

theorem JVal.beq_iff : ∀ (a b : JVal), JVal.beq a b = true ↔ a = b
  | .null, .null => by simp [JVal.beq]
  | .bool _, .bool _ => by simp [JVal.beq]
  | .num _, .num _ => by simp [JVal.beq]
  | .str _, .str _ => by simp [JVal.beq]
  | .arr xs, .arr ys => by simp [JVal.beq, JVal.beqList_iff xs ys]
  | .obj xs, .obj ys => by simp [JVal.beq, JVal.beqObj_iff xs ys]
  | .null, .bool _ | .null, .num _ | .null, .str _ | .null, .arr _ | .null, .obj _ =>
    by simp [JVal.beq]
  | .bool _, .null | .bool _, .num _ | .bool _, .str _ | .bool _, .arr _ | .bool _, .obj _ =>
    by simp [JVal.beq]
  | .num _, .null | .num _, .bool _ | .num _, .str _ | .num _, .arr _ | .num _, .obj _ =>
    by simp [JVal.beq]
  | .str _, .null | .str _, .bool _ | .str _, .num _ | .str _, .arr _ | .str _, .obj _ =>
    by simp [JVal.beq]
  | .arr _, .null | .arr _, .bool _ | .arr _, .num _ | .arr _, .str _ | .arr _, .obj _ =>
    by simp [JVal.beq]
  | .obj _, .null | .obj _, .bool _ | .obj _, .num _ | .obj _, .str _ | .obj _, .arr _ =>
    by simp [JVal.beq]

theorem JVal.beqList_iff : ∀ (xs ys : List JVal), JVal.beqList xs ys = true ↔ xs = ys
  | [], [] => by simp [JVal.beqList]
  | x :: xs, y :: ys => by
    simp [JVal.beqList, JVal.beq_iff x y, JVal.beqList_iff xs ys]
  | [], _ :: _ => by simp [JVal.beqList]
  | _ :: _, [] => by simp [JVal.beqList]

theorem JVal.beqObj_iff : ∀ (xs ys : List (String × JVal)), JVal.beqObj xs ys = true ↔ xs = ys
  | [], [] => by simp [JVal.beqObj]
  | (_, v1) :: xs, (_, v2) :: ys => by
    simp [JVal.beqObj, JVal.beq_iff v1 v2, JVal.beqObj_iff xs ys, and_assoc]
  | [], _ :: _ => by simp [JVal.beqObj]
  | _ :: _, [] => by simp [JVal.beqObj]

end

instance : DecidableEq JVal := fun a b => decidable_of_iff _ (JVal.beq_iff a b)

instance : DecidableEq TaskCreatRolePrompt := fun a b =>
  decidable_of_iff (a.id = b.id ∧ a.task_name = b.task_name ∧ a.task_state = b.task_state ∧
    a.role_id = b.role_id ∧ a.role_name = b.role_name ∧
    a.role_item_prompt = b.role_item_prompt ∧ a.task_cmd = b.task_cmd)
    (by cases a; cases b; simp)

instance : DecidableEq RolePrompt := fun a b =>
  decidable_of_iff (a.id = b.id ∧ a.role_id = b.role_id ∧ a.version = b.version ∧
    a.user_prompt = b.user_prompt ∧ a.is_active = b.is_active)
    (by cases a; cases b; simp)

instance : DecidableEq CategoryItem := fun a b =>
  decidable_of_iff (a.task_id = b.task_id ∧ a.task_name = b.task_name ∧
    a.content = b.content ∧ a.confidence = b.confidence ∧ a.tokens_used = b.tokens_used)
    (by cases a; cases b; simp)

instance : DecidableEq ApiResponse := fun a b =>
  decidable_of_iff (a.success = b.success ∧ a.data = b.data ∧ a.error = b.error ∧
    a.error_code = b.error_code ∧ a.duration = b.duration ∧
    a.tokens_used = b.tokens_used ∧ a.api_version = b.api_version)
    (by cases a; cases b; simp)

instance : DecidableEq Role := fun a b =>
  decidable_of_iff (a.id = b.id ∧ a.name = b.name ∧ a.create_from = b.create_from ∧
    a.has_prompts = b.has_prompts ∧ a.ip_id = b.ip_id)
    (by cases a; cases b; simp)

/-!
Association-list lemmas shared by the deep-merge and aggregator proofs.
-/

theorem jLookup_eq_alookup (k : String) (l : List (String × JVal)) :
    jLookup k l = alookup k l := by
  induction l with
  | nil => rfl
  | cons kv rest ih =>
    obtain ⟨k2, v⟩ := kv
    simp only [jLookup, alookup, ih]

theorem jLookup_setKey_self (k : String) (v : JVal) (t : List (String × JVal)) :
    jLookup k (jSetKey k v t) = (jLookup k t).map (fun _ => v) := by
  induction t with
  | nil => rfl
  | cons kv rest ih =>
    obtain ⟨k2, w⟩ := kv
    by_cases h : k2 = k
    · simp [jSetKey, jLookup, h]
    · simp [jSetKey, jLookup, h, ih]

theorem jLookup_setKey_ne (k2 k : String) (h : k2 ≠ k) (v : JVal)
    (t : List (String × JVal)) : jLookup k2 (jSetKey k v t) = jLookup k2 t := by
  induction t with
  | nil => rfl
  | cons kv rest ih =>
    obtain ⟨k3, w⟩ := kv
    by_cases h3 : k3 = k
    · subst h3
      simp [jSetKey, jLookup, Ne.symm h]
    · simp [jSetKey, jLookup, h3, ih]

theorem jLookup_append (k : String) (t s : List (String × JVal)) :
    jLookup k (t ++ s) =
      match jLookup k t with
      | some v => some v
      | none => jLookup k s := by
  induction t with
  | nil => rfl
  | cons kv rest ih =>
    obtain ⟨k2, v⟩ := kv
    by_cases h : k2 = k
    · simp [jLookup, h]
    · simp [jLookup, h, ih]

theorem jSetKey_keys (k : String) (v : JVal) (t : List (String × JVal)) :
    (jSetKey k v t).map Prod.fst = t.map Prod.fst := by
  induction t with
  | nil => rfl
  | cons kv rest ih =>
    obtain ⟨k2, w⟩ := kv
    by_cases h : k2 = k
    · simp [jSetKey, h]
    · simp [jSetKey, h, ih]

theorem jLookup_eq_none_of_not_mem_keys (k : String) (t : List (String × JVal))
    (h : k ∉ t.map Prod.fst) : jLookup k t = none := by
  induction t with
  | nil => rfl
  | cons kv rest ih =>
    obtain ⟨k2, v⟩ := kv
    simp only [List.map_cons, List.mem_cons] at h
    push_neg at h
    simp [jLookup, Ne.symm h.1, ih h.2]

/-!
Deep-merge characterization (claim C5).
-/

theorem deep_merge_cons_present (t : List (String × JVal)) (key : String)
    (value tv : JVal) (rest : List (String × JVal)) (hkt : jLookup key t = some tv) :
    _deep_merge_dict t ((key, value) :: rest) =
      _deep_merge_dict (jSetKey key (mergeVal tv value) t) rest := by
  cases tv <;> cases value <;> simp only [_deep_merge_dict, hkt, mergeVal]

theorem deep_merge_cons_absent (t : List (String × JVal)) (key : String)
    (value : JVal) (rest : List (String × JVal)) (hkt : jLookup key t = none) :
    _deep_merge_dict t ((key, value) :: rest) =
      _deep_merge_dict (t ++ [(key, value)]) rest := by
  simp only [_deep_merge_dict, hkt]

theorem deep_merge_lookup (s t : List (String × JVal))
    (hs : (s.map Prod.fst).Nodup) (k : String) :
    jLookup k (_deep_merge_dict t s) =
      match jLookup k t, jLookup k s with
      | some tv, some sv => some (mergeVal tv sv)
      | some tv, none => some tv
      | none, some sv => some sv
      | none, none => none := by
  induction s generalizing t with
  | nil =>
    cases h : jLookup k t <;> simp [_deep_merge_dict, jLookup, h]
  | cons kv rest ih =>
    obtain ⟨key, value⟩ := kv
    simp only [List.map_cons, List.nodup_cons] at hs
    obtain ⟨hknotin, hrest⟩ := hs
    have hrestnone : jLookup key rest = none :=
      jLookup_eq_none_of_not_mem_keys key rest hknotin
    cases hkt : jLookup key t with
    | some tv =>
      rw [deep_merge_cons_present t key value tv rest hkt, ih _ hrest]
      by_cases hk : key = k
      · subst hk
        rw [jLookup_setKey_self, hkt, hrestnone]
        simp [jLookup, hkt]
      · rw [jLookup_setKey_ne k key (Ne.symm hk)]
        simp only [jLookup, if_neg hk]
    | none =>
      rw [deep_merge_cons_absent t key value rest hkt, ih _ hrest]
      by_cases hk : key = k
      · subst hk
        rw [jLookup_append, hkt, hrestnone]
        simp [jLookup, hkt]
      · rw [jLookup_append]
        simp only [jLookup, if_neg hk]
        cases h : jLookup k t <;> simp [h]

theorem deep_merge_keys (s t : List (String × JVal)) (hs : (s.map Prod.fst).Nodup) :
    (_deep_merge_dict t s).map Prod.fst =
      t.map Prod.fst ++
        ((s.filter (fun kv => (jLookup kv.1 t).isNone)).map Prod.fst) := by
  induction s generalizing t with
  | nil => simp [_deep_merge_dict]
  | cons kv rest ih =>
    obtain ⟨key, value⟩ := kv
    simp only [List.map_cons, List.nodup_cons] at hs
    obtain ⟨hknotin, hrest⟩ := hs
    have hfilter : ∀ t2 : List (String × JVal),
        (∀ k2, k2 ∈ rest.map Prod.fst → (jLookup k2 t2).isNone = (jLookup k2 t).isNone) →
        rest.filter (fun kv2 => (jLookup kv2.1 t2).isNone) =
          rest.filter (fun kv2 => (jLookup kv2.1 t).isNone) := by
      intro t2 h
      apply List.filter_congr
      intro kv2 hkv2
      exact h kv2.1 (List.mem_map_of_mem Prod.fst hkv2)
    cases hkt : jLookup key t with
    | some tv =>
      rw [deep_merge_cons_present t key value tv rest hkt, ih _ hrest]
      rw [jSetKey_keys]
      rw [hfilter (jSetKey key (mergeVal tv value) t) ?_]
      · simp [List.filter_cons, hkt]
      · intro k2 hk2
        have hne : k2 ≠ key := fun h => hknotin (h ▸ hk2)
        rw [jLookup_setKey_ne k2 key hne]
    | none =>
      rw [deep_merge_cons_absent t key value rest hkt, ih _ hrest]
      rw [hfilter (t ++ [(key, value)]) ?_]
      · simp [List.filter_cons, hkt]
      · intro k2 hk2
        have hne : k2 ≠ key := fun h => hknotin (h ▸ hk2)
        rw [jLookup_append]
        cases h2 : jLookup k2 t with
        | some v2 => simp
        | none => simp [jLookup, Ne.symm hne]

theorem pyExtendDedup_append_structure (s t : List JVal) :
    ∃ extra, pyExtendDedup t s = t ++ extra ∧ ∀ x ∈ extra, x ∈ s ∧ x ∉ t := by
  induction s generalizing t with
  | nil => exact ⟨[], by simp [pyExtendDedup]⟩
  | cons h rest ih =>
    by_cases hmem : h ∈ t
    · have hany : t.any (fun y => JVal.beq y h) = true := by
        simp only [List.any_eq_true]
        exact ⟨h, hmem, (JVal.beq_iff h h).mpr rfl⟩
      obtain ⟨extra, heq, hprop⟩ := ih t
      refine ⟨extra, by simp [pyExtendDedup, hany, heq], ?_⟩
      intro x hx
      exact ⟨List.mem_cons_of_mem h (hprop x hx).1, (hprop x hx).2⟩
    · have hany : t.any (fun y => JVal.beq y h) = false := by
        simp only [List.any_eq_false]
        intro y hy
        intro hbeq
        exact hmem (((JVal.beq_iff y h).mp hbeq) ▸ hy)
      obtain ⟨extra, heq, hprop⟩ := ih (t ++ [h])
      refine ⟨h :: extra, ?_, ?_⟩
      · simp only [pyExtendDedup, hany, Bool.false_eq_true, if_false, heq]
        simp
      · intro x hx
        rcases List.mem_cons.1 hx with rfl | hx2
        · exact ⟨List.mem_cons_self x rest, hmem⟩
        · refine ⟨List.mem_cons_of_mem h (hprop x hx2).1, ?_⟩
          intro hxt
          exact (hprop x hx2).2 (List.mem_append_left [h] hxt)

theorem pyExtendDedup_mem (s t : List JVal) (x : JVal) :
    x ∈ pyExtendDedup t s ↔ x ∈ t ∨ x ∈ s := by
  induction s generalizing t with
  | nil => simp [pyExtendDedup]
  | cons h rest ih =>
    by_cases hmem : h ∈ t
    · have hany : t.any (fun y => JVal.beq y h) = true := by
        simp only [List.any_eq_true]
        exact ⟨h, hmem, (JVal.beq_iff h h).mpr rfl⟩
      rw [show pyExtendDedup t (h :: rest) = pyExtendDedup t rest by
        simp [pyExtendDedup, hany]]
      rw [ih t]
      constructor
      · rintro (hx | hx)
        · exact Or.inl hx
        · exact Or.inr (List.mem_cons_of_mem h hx)
      · rintro (hx | hx)
        · exact Or.inl hx
        · rcases List.mem_cons.1 hx with rfl | hx2
          · exact Or.inl hmem
          · exact Or.inr hx2
    · have hany : t.any (fun y => JVal.beq y h) = false := by
        simp only [List.any_eq_false]
        intro y hy hbeq
        exact hmem (((JVal.beq_iff y h).mp hbeq) ▸ hy)
      rw [show pyExtendDedup t (h :: rest) = pyExtendDedup (t ++ [h]) rest by
        simp [pyExtendDedup, hany]]
      rw [ih (t ++ [h])]
      simp only [List.mem_append, List.mem_singleton, List.mem_cons]
      tauto

/-- C5: the Legacy synchronizer's deep merge unions keys (target keys first,
in order, then the new source keys in source order), merges dict-valued shared
keys recursively, extends list-valued shared keys with only the source
elements not already present (target order preserved as a prefix, every merged
element coming from one of the two sides), and overwrites any other shared key
with the source value; merging `{"a": {"x": 1}, "b": [1, 2]}` into
`{"a": {"y": 2}, "b": [2, 3]}` yields `{"a": {"y": 2, "x": 1}, "b": [2, 3, 1]}`,
which as a Python dict equals the claimed `{"a": {"x": 1, "y": 2}, "b": [2, 3, 1]}`
(dict equality ignores key order; the second conjunct exhibits the lookups). -/
theorem C5_deep_merge :
    (∀ (s t : List (String × JVal)), (s.map Prod.fst).Nodup → ∀ k,
      jLookup k (_deep_merge_dict t s) =
        match jLookup k t, jLookup k s with
        | some tv, some sv => some (mergeVal tv sv)
        | some tv, none => some tv
        | none, some sv => some sv
        | none, none => none) ∧
    (∀ (s t : List (String × JVal)), (s.map Prod.fst).Nodup →
      (_deep_merge_dict t s).map Prod.fst =
        t.map Prod.fst ++ ((s.filter (fun kv => (jLookup kv.1 t).isNone)).map Prod.fst)) ∧
    (∀ (s t : List JVal), ∃ extra, pyExtendDedup t s = t ++ extra ∧
      ∀ x ∈ extra, x ∈ s ∧ x ∉ t) ∧
    (∀ (s t : List JVal) (x : JVal), x ∈ pyExtendDedup t s ↔ x ∈ t ∨ x ∈ s) ∧
    (_deep_merge_dict [("a", .obj [("y", .num 2)]), ("b", .arr [.num 2, .num 3])]
        [("a", .obj [("x", .num 1)]), ("b", .arr [.num 1, .num 2])] =
      [("a", .obj [("y", .num 2), ("x", .num 1)]), ("b", .arr [.num 2, .num 3, .num 1])]) ∧
    (jLookup "x" [("y", JVal.num 2), ("x", JVal.num 1)] = some (.num 1) ∧
     jLookup "y" [("y", JVal.num 2), ("x", JVal.num 1)] = some (.num 2)) := by
  refine ⟨fun s t hs k => deep_merge_lookup s t hs k,
    fun s t hs => deep_merge_keys s t hs,
    fun s t => pyExtendDedup_append_structure s t,
    fun s t x => pyExtendDedup_mem s t x, ?_, by decide⟩
  simp [_deep_merge_dict, jLookup, jSetKey, pyExtendDedup, JVal.beq]

/-- Witness for C5: the lookup characterization applied to the concrete merge
of the claim at key `b` (the no-duplicate-keys hypothesis discharged by
computation). -/
theorem C5_deep_merge_witness :
    jLookup "b" (_deep_merge_dict
        [("a", .obj [("y", .num 2)]), ("b", .arr [.num 2, .num 3])]
        [("a", .obj [("x", .num 1)]), ("b", .arr [.num 1, .num 2])]) =
      some (mergeVal (.arr [.num 2, .num 3]) (.arr [.num 1, .num 2])) := by
  have h := C5_deep_merge.1
    [("a", .obj [("x", .num 1)]), ("b", .arr [.num 1, .num 2])]
    [("a", .obj [("y", .num 2)]), ("b", .arr [.num 2, .num 3])]
    (by decide) "b"
  rw [h]
  rfl

/-!
Batch-number extraction and grouping (claim C6).
-/

theorem addToBatchGroup_inv {P : TaskCreatRolePrompt → Prop}
    {groups : List (List Char × List TaskCreatRolePrompt)} {bn : List Char}
    {task : TaskCreatRolePrompt}
    (hg : ∀ g ∈ groups, ∀ t ∈ g.2, P t) (ht : P task) :
    ∀ g ∈ addToBatchGroup groups bn task, ∀ t ∈ g.2, P t := by
  intro g hgmem t htmem
  unfold addToBatchGroup at hgmem
  by_cases hany : groups.any (fun g => decide (g.1 = bn)) = true
  · rw [if_pos hany] at hgmem
    obtain ⟨g0, hg0, hfg⟩ := List.mem_map.1 hgmem
    by_cases hbn : g0.1 = bn
    · rw [if_pos hbn] at hfg
      subst hfg
      rcases List.mem_append.1 htmem with h2 | h2
      · exact hg g0 hg0 t h2
      · rw [List.mem_singleton.1 h2]
        exact ht
    · rw [if_neg hbn] at hfg
      subst hfg
      exact hg g0 hg0 t htmem
  · rw [if_neg hany] at hgmem
    rcases List.mem_append.1 hgmem with h2 | h2
    · exact hg g h2 t htmem
    · rw [List.mem_singleton.1 h2] at htmem
      rw [List.mem_singleton.1 htmem]
      exact ht

theorem extract_and_group_inv (tasks : List TaskCreatRolePrompt)
    (acc : List (List Char × List TaskCreatRolePrompt))
    (hacc : ∀ g ∈ acc, ∀ t ∈ g.2,
      ∃ nm, t.task_name = some nm ∧ _extract_batch_number nm ≠ []) :
    ∀ g ∈ tasks.foldl (fun batch_groups task =>
        match task.task_name with
        | none => batch_groups
        | some name =>
          if name = [] then batch_groups
          else
            let bn := _extract_batch_number name
            if bn = [] then batch_groups else addToBatchGroup batch_groups bn task) acc,
      ∀ t ∈ g.2, ∃ nm, t.task_name = some nm ∧ _extract_batch_number nm ≠ [] := by
  induction tasks generalizing acc with
  | nil => exact hacc
  | cons task rest ih =>
    rw [List.foldl_cons]
    apply ih
    cases htn : task.task_name with
    | none => simpa [htn] using hacc
    | some name =>
      by_cases hempty : name = []
      · simpa [htn, hempty] using hacc
      · by_cases hbn : _extract_batch_number name = []
        · simpa [htn, hempty, hbn] using hacc
        · simp only [htn, if_neg hempty, if_neg hbn]
          exact addToBatchGroup_inv hacc ⟨name, htn, hbn⟩

/-- C6: splitting a task name on `-` yields a batch number exactly when there
are at least 3 segments and the second is a non-empty all-digit string, in
which case the batch number is that second segment; the two concrete names of
the claim behave as stated; and a task whose name yields no batch number is
a member of no batch group. -/
theorem C6_batch_number_extraction :
    (∀ name : List Char,
      _extract_batch_number name ≠ [] ↔
        (3 ≤ (splitOnPred (fun c => c = '-') name).length ∧
          pyIsDigit ((splitOnPred (fun c => c = '-') name).getD 1 []) = true)) ∧
    (∀ name : List Char, _extract_batch_number name ≠ [] →
      _extract_batch_number name = (splitOnPred (fun c => c = '-') name).getD 1 []) ∧
    _extract_batch_number "明日方舟角色任务001-143257-明日方舟-铃兰-人物关系".data = "143257".data ∧
    _extract_batch_number "无效任务名称".data = [] ∧
    (∀ (tasks : List TaskCreatRolePrompt) (task : TaskCreatRolePrompt) (name : List Char),
      task.task_name = some name → _extract_batch_number name = [] →
      ∀ g ∈ _extract_and_group_by_batch tasks, task ∉ g.2) := by
  refine ⟨?_, ?_, by decide, by decide, ?_⟩
  · intro name
    unfold _extract_batch_number
    by_cases hlen : 3 ≤ (splitOnPred (fun c => c = '-') name).length
    · rw [if_pos hlen]
      by_cases hdig : pyIsDigit ((splitOnPred (fun c => c = '-') name).getD 1 []) = true
      · rw [if_pos hdig]
        have hne : (splitOnPred (fun c => c = '-') name).getD 1 [] ≠ [] := by
          intro h
          rw [h] at hdig
          exact absurd hdig (by decide)
        exact ⟨fun _ => ⟨hlen, hdig⟩, fun _ => hne⟩
      · rw [if_neg hdig]
        exact ⟨fun h => absurd rfl h, fun h => absurd h.2 hdig⟩
    · rw [if_neg hlen]
      exact ⟨fun h => absurd rfl h, fun h => absurd h.1 hlen⟩
  · intro name hne
    unfold _extract_batch_number at hne ⊢
    by_cases hlen : 3 ≤ (splitOnPred (fun c => c = '-') name).length
    · rw [if_pos hlen] at hne ⊢
      by_cases hdig : pyIsDigit ((splitOnPred (fun c => c = '-') name).getD 1 []) = true
      · rw [if_pos hdig]
      · rw [if_neg hdig] at hne
        exact absurd rfl hne
    · rw [if_neg hlen] at hne
      exact absurd rfl hne
  · intro tasks task name htn hbn g hg htask
    obtain ⟨nm, hnm, hne⟩ :=
      extract_and_group_inv tasks [] (by simp) g hg task htask
    rw [htn] at hnm
    injection hnm with hnm
    exact hne (hnm ▸ hbn)

/-- Witness for C6: the characterization applied to the claim's concrete valid
name, with its hypotheses discharged by computation. -/
theorem C6_batch_number_extraction_witness :
    _extract_batch_number "明日方舟角色任务001-143257-明日方舟-铃兰-人物关系".data =
      (splitOnPred (fun c => c = '-') "明日方舟角色任务001-143257-明日方舟-铃兰-人物关系".data).getD 1 [] :=
  C6_batch_number_extraction.2.1 "明日方舟角色任务001-143257-明日方舟-铃兰-人物关系".data (by decide)

/-!
Quality scoring after deduplication (claim C1): the deduplicated content never
contains a sentence terminator, so its re-split has at most one sentence, its
repetition rate is 0, and its score is at least 0.5.
-/

theorem splitOnPred_ne_nil (p : Char → Bool) (l : List Char) : splitOnPred p l ≠ [] := by
  cases l with
  | nil => simp [splitOnPred]
  | cons c cs =>
    cases h : splitOnPred p cs with
    | nil => simp [splitOnPred, h]
    | cons s rest =>
      by_cases hp : p c <;> simp [splitOnPred, h, hp]

theorem mem_splitOnPred_no_sep (p : Char → Bool) (l : List Char) :
    ∀ q ∈ splitOnPred p l, ∀ ch ∈ q, p ch = false := by
  induction l with
  | nil =>
    intro q hq ch hch
    simp only [splitOnPred, List.mem_singleton] at hq
    subst hq
    exact absurd hch (List.not_mem_nil ch)
  | cons c cs ih =>
    intro q hq ch hch
    cases h : splitOnPred p cs with
    | nil => exact absurd h (splitOnPred_ne_nil p cs)
    | cons s rest =>
      rw [show splitOnPred p (c :: cs) =
          if p c then [] :: s :: rest else (c :: s) :: rest by simp [splitOnPred, h]] at hq
      by_cases hp : p c
      · rw [if_pos hp] at hq
        rcases List.mem_cons.1 hq with rfl | hq2
        · exact absurd hch (List.not_mem_nil ch)
        · exact ih q (h ▸ hq2) ch hch
      · rw [if_neg hp] at hq
        rcases List.mem_cons.1 hq with rfl | hq2
        · rcases List.mem_cons.1 hch with rfl | hch2
          · exact Bool.eq_false_iff.2 hp
          · exact ih s (h ▸ List.mem_cons_self s rest) ch hch2
        · exact ih q (h ▸ List.mem_cons_of_mem s hq2) ch hch

theorem splitOnPred_all_neg (p : Char → Bool) (l : List Char)
    (h : ∀ ch ∈ l, p ch = false) : splitOnPred p l = [l] := by
  induction l with
  | nil => rfl
  | cons c cs ih =>
    have hcs : splitOnPred p cs = [cs] := ih (fun ch hch => h ch (List.mem_cons_of_mem c hch))
    have hc : p c = false := h c (List.mem_cons_self c cs)
    simp [splitOnPred, hcs, hc]

theorem mem_pyStrip_subset (s : List Char) (ch : Char) (h : ch ∈ pyStrip s) : ch ∈ s := by
  unfold pyStrip at h
  rw [List.mem_reverse] at h
  have h2 := (List.dropWhile_sublist _).subset h
  rw [List.mem_reverse] at h2
  exact (List.dropWhile_sublist (l := s) Char.isWhitespace).subset h2

theorem mem_pyJoin (sep : List Char) (parts : List (List Char)) (ch : Char)
    (h : ch ∈ pyJoin sep parts) : ch ∈ sep ∨ ∃ part ∈ parts, ch ∈ part := by
  induction parts with
  | nil => exact absurd h (List.not_mem_nil ch)
  | cons x rest ih =>
    cases rest with
    | nil =>
      right
      exact ⟨x, List.mem_singleton_self x, h⟩
    | cons y rest2 =>
      rw [show pyJoin sep (x :: y :: rest2) = x ++ sep ++ pyJoin sep (y :: rest2) from rfl] at h
      rcases List.mem_append.1 h with h2 | h2
      · rcases List.mem_append.1 h2 with h3 | h3
        · exact Or.inr ⟨x, List.mem_cons_self x _, h3⟩
        · exact Or.inl h3
      · rcases ih h2 with h3 | ⟨part, hpart, hchp⟩
        · exact Or.inl h3
        · exact Or.inr ⟨part, List.mem_cons_of_mem x hpart, hchp⟩

theorem remove_duplicates_fold_subset (ss : List (List Char))
    (acc : List (List Char) × List (List Char)) (P : List Char → Prop)
    (hacc : ∀ x ∈ acc.1, P x) (hss : ∀ x ∈ ss, P x) :
    ∀ x ∈ (ss.foldl (fun (acc : List (List Char) × List (List Char)) sentence =>
      let fingerprint := _generate_sentence_fingerprint sentence
      if fingerprint ∈ acc.2 then acc
      else (acc.1 ++ [sentence], acc.2 ++ [fingerprint])) acc).1, P x := by
  induction ss generalizing acc with
  | nil => exact hacc
  | cons s rest ih =>
    rw [List.foldl_cons]
    apply ih
    · by_cases hf : _generate_sentence_fingerprint s ∈ acc.2
      · simpa [hf] using hacc
      · simp only [hf, if_false, if_neg hf]
        intro x hx
        rcases List.mem_append.1 hx with hx2 | hx2
        · exact hacc x hx2
        · rw [List.mem_singleton.1 hx2]
          exact hss s (List.mem_cons_self s rest)
    · exact fun x hx => hss x (List.mem_cons_of_mem s hx)

theorem mem_split_sentences (c : List Char) (q : List Char)
    (hq : q ∈ _split_sentences c) : ∃ raw ∈ splitOnPred isSentTerm c, q = pyStrip raw := by
  unfold _split_sentences at hq
  have hq2 := List.mem_of_mem_filter hq
  obtain ⟨raw, hraw, hq3⟩ := List.mem_map.1 hq2
  exact ⟨raw, hraw, hq3.symm⟩

theorem remove_duplicates_no_term (c : List Char) (ch : Char)
    (h : ch ∈ remove_duplicates c) : isSentTerm ch = false := by
  unfold remove_duplicates at h
  rcases mem_pyJoin [' '] _ ch h with hsep | ⟨part, hpart, hchp⟩
  · rw [List.mem_singleton.1 hsep]
    decide
  · have hpart2 : part ∈ _split_sentences c := by
      refine remove_duplicates_fold_subset (_split_sentences c) ([], [])
        (fun x => x ∈ _split_sentences c) ?_ (fun x hx => hx) part hpart
      intro x hx
      exact absurd hx (List.not_mem_nil x)
    obtain ⟨raw, hraw, hpp⟩ := mem_split_sentences c part hpart2
    exact mem_splitOnPred_no_sep isSentTerm c raw hraw ch
      (mem_pyStrip_subset raw ch (hpp ▸ hchp))

theorem split_sentences_of_no_term (s : List Char)
    (h : ∀ ch ∈ s, isSentTerm ch = false) :
    _split_sentences s = if pyStrip s = [] then [] else [pyStrip s] := by
  unfold _split_sentences
  rw [splitOnPred_all_neg isSentTerm s h]
  by_cases hs : pyStrip s = [] <;> simp [List.filter, hs]

theorem split_sentences_remove_duplicates_le_one (c : List Char) :
    (_split_sentences (remove_duplicates c)).length ≤ 1 := by
  rw [split_sentences_of_no_term (remove_duplicates c) (remove_duplicates_no_term c)]
  by_cases h : pyStrip (remove_duplicates c) = [] <;> simp [h]

/-- The claim's closed formula for the quality score: 1.0 minus the length
penalty, minus 0.3 times the repetition rate, minus the structure penalty,
clamped below at 0. -/
theorem validate_quality_formula (content : List Char) :
    validate_quality content =
      max 0 (1
        - (if content.length < 100 then 3/10
           else if 2000 < content.length then 2/10 else 0)
        - (if 0 < (_split_sentences content).length then
             (1 - ((_split_sentences content).dedup.length : ℚ) /
               ((_split_sentences content).length : ℚ)) * (3/10)
           else 0)
        - (if _has_complete_structure content then 0 else 2/10)) := by
  simp only [validate_quality]
  split_ifs <;> ring_nf

theorem quality_after_dedup_ge (c : List Char) :
    1/2 ≤ validate_quality (remove_duplicates c) := by
  rw [validate_quality_formula]
  have hsen := split_sentences_remove_duplicates_le_one c
  have hrep : (if 0 < (_split_sentences (remove_duplicates c)).length then
      (1 - ((_split_sentences (remove_duplicates c)).dedup.length : ℚ) /
        ((_split_sentences (remove_duplicates c)).length : ℚ)) * (3/10)
    else 0) = 0 := by
    rcases Nat.le_one_iff_eq_zero_or_eq_one.1 hsen with h0 | h1
    · rw [if_neg]
      omega
    · obtain ⟨x, hx⟩ := List.length_eq_one.1 h1
      rw [hx]
      norm_num
  rw [hrep]
  have hle : (1:ℚ)/2 ≤ 1
      - (if (remove_duplicates c).length < 100 then 3/10
         else if 2000 < (remove_duplicates c).length then 2/10 else 0)
      - 0
      - (if _has_complete_structure (remove_duplicates c) then 0 else 2/10) := by
    split_ifs <;> norm_num
  exact le_trans hle (le_max_right 0 _)

/-- Evaluation of the quality score of the deduplicated 20-character content:
exactly 0.5, which is not below the 0.5 gate. -/
theorem quality20_eval :
    validate_quality (remove_duplicates "abcdefghij.klmnopqrs".data) = 1/2 := by
  rw [show remove_duplicates "abcdefghij.klmnopqrs".data = "abcdefghij klmnopqrs".data
    from by decide]
  unfold validate_quality
  norm_num [show ("abcdefghij klmnopqrs".data).length = 20 from by decide,
    show _split_sentences "abcdefghij klmnopqrs".data = ["abcdefghij klmnopqrs".data]
      from by decide,
    show ([("abcdefghij klmnopqrs".data : List Char)] : List (List Char)).dedup =
      ["abcdefghij klmnopqrs".data] from by decide,
    show _has_complete_structure "abcdefghij klmnopqrs".data = false from by decide]

/-- Evaluation of the whole aggregation on the 20-character scenario: the run
succeeds with quality score exactly 0.5 and writes one active version-1
RolePrompt row. -/
theorem aggregate20_eval :
    (aggregate_role_results [task20] [] 7).1.success = true ∧
    (aggregate_role_results [task20] [] 7).1.quality_score = 1/2 ∧
    (aggregate_role_results [task20] [] 7).2.map
      (fun r => (r.role_id, r.version, r.is_active)) = [(7, 1, "Y")] := by
  unfold aggregate_role_results
  norm_num [show (List.filter (fun t =>
      t.role_id == 7 && (t.task_state == "P" || t.task_state == "Q" || t.task_state == "R"))
      [task20]) = [] from by decide,
    show (List.filter (fun t => t.role_id == 7 && t.task_state == "C" &&
      t.role_item_prompt.isSome) [task20]) = [task20] from by decide,
    show _aggregate_content [task20] = "abcdefghij.klmnopqrs".data from by decide,
    show remove_duplicates "abcdefghij.klmnopqrs".data = "abcdefghij klmnopqrs".data
      from by decide,
    show validate_quality "abcdefghij klmnopqrs".data = 1/2 from by
      rw [show ("abcdefghij klmnopqrs".data : List Char) =
        remove_duplicates "abcdefghij.klmnopqrs".data from by decide]
      exact quality20_eval,
    _create_role_prompt,
    show _get_latest_version [] 7 = none from by decide,
    pyOrZero, nextRolePromptId, listMaxZ]

/-- C1 (amended): the quality score follows the claimed arithmetic (with the
structure heuristic testing for a character of `。！？.,!?`, comma included);
but the score of deduplicated content can never fall below 0.5 — after
`remove_duplicates` the content holds no sentence terminator, so the re-split
yields at most one sentence and the repetition penalty is always 0, leaving at
most 0.3 + 0.2 of penalties — so the `< 0.5` gate never rejects; in
particular a role whose only completed task content is the 20-character string
`abcdefghij.klmnopqrs` scores exactly 0.5, is accepted, and a version-1 active
RolePrompt row is written. -/
theorem C1_quality_gate :
    (∀ content : List Char,
      validate_quality content =
        max 0 (1
          - (if content.length < 100 then 3/10
             else if 2000 < content.length then 2/10 else 0)
          - (if 0 < (_split_sentences content).length then
               (1 - ((_split_sentences content).dedup.length : ℚ) /
                 ((_split_sentences content).length : ℚ)) * (3/10)
             else 0)
          - (if _has_complete_structure content then 0 else 2/10))) ∧
    (∀ content : List Char, 1/2 ≤ validate_quality (remove_duplicates content)) ∧
    validate_quality (remove_duplicates "abcdefghij.klmnopqrs".data) = 1/2 ∧
    (aggregate_role_results [task20] [] 7).1.success = true ∧
    (aggregate_role_results [task20] [] 7).2.map
      (fun r => (r.role_id, r.version, r.is_active)) = [(7, 1, "Y")] :=
  ⟨validate_quality_formula, quality_after_dedup_ge, quality20_eval,
    aggregate20_eval.1, aggregate20_eval.2.2⟩

/-- Counterexample to C1 as stated: the 20-character single-completed-task
content `abcdefghij.klmnopqrs` is NOT rejected — its deduplicated score is
exactly 0.5 (not below 0.5), the aggregation succeeds, and a RolePrompt row
IS written. -/
theorem C1_quality_gate_counterexample :
    ¬ validate_quality (remove_duplicates "abcdefghij.klmnopqrs".data) < 1/2 ∧
    (aggregate_role_results [task20] [] 7).1.success = true ∧
    (aggregate_role_results [task20] [] 7).2 ≠ [] := by
  refine ⟨?_, aggregate20_eval.1, ?_⟩
  · rw [quality20_eval]
    exact lt_irrefl (1/2)
  · intro h
    have h2 := aggregate20_eval.2.2
    rw [h] at h2
    exact absurd h2 (by simp)

/-!
Versioning of aggregation writes (claim C2).
-/

theorem listMaxZ_le (l : List ℤ) (x : ℤ) (hx : x ∈ l) :
    ∃ m, listMaxZ l = some m ∧ x ≤ m := by
  induction l with
  | nil => exact absurd hx (List.not_mem_nil x)
  | cons y rest ih =>
    cases h : listMaxZ rest with
    | none =>
      rcases List.mem_cons.1 hx with rfl | hx2
      · exact ⟨x, by simp [listMaxZ, h], le_refl x⟩
      · obtain ⟨m, hm, _⟩ := ih hx2
        rw [h] at hm
        exact absurd hm (by simp)
    | some m =>
      rcases List.mem_cons.1 hx with rfl | hx2
      · exact ⟨max x m, by simp [listMaxZ, h], le_max_left x m⟩
      · obtain ⟨m2, hm2, hxm⟩ := ih hx2
        rw [h] at hm2
        have hm2e : m = m2 := Option.some.inj hm2
        refine ⟨max y m, by simp [listMaxZ, h], le_trans ?_ (le_max_right y m)⟩
        omega

theorem listMaxZ_append_last (l : List ℤ) (v : ℤ) (h : ∀ x ∈ l, x ≤ v) :
    listMaxZ (l ++ [v]) = some v := by
  induction l with
  | nil => rfl
  | cons x rest ih =>
    have hrest := ih (fun y hy => h y (List.mem_cons_of_mem x hy))
    rw [List.cons_append, show listMaxZ (x :: (rest ++ [v])) =
      match listMaxZ (rest ++ [v]) with
      | none => some x
      | some m => some (max x m) from rfl, hrest]
    simp [max_eq_right (h x (List.mem_cons_self x rest))]

theorem version_le_latest (db : List RolePrompt) (rid : ℤ) (r : RolePrompt)
    (hr : r ∈ db) (hrole : r.role_id = rid) :
    ∃ m, _get_latest_version db rid = some m ∧ r.version ≤ m := by
  apply listMaxZ_le
  refine List.mem_map_of_mem (fun r : RolePrompt => r.version) ?_
  rw [List.mem_filter]
  exact ⟨hr, by simp [hrole]⟩

theorem pyOrZero_eq_getD (o : Option ℤ) : pyOrZero o = o.getD 0 := by
  cases o with
  | none => rfl
  | some v => by_cases h : v = 0 <;> simp [pyOrZero, h]

theorem filter_map_deactivate (db : List RolePrompt) (rid nv : ℤ) :
    (((db.map (fun r => if r.role_id = rid ∧ r.version ≠ nv
        then { r with is_active := "N" } else r)).filter
      (fun r => r.role_id == rid)).map (fun r => r.version)) =
    ((db.filter (fun r => r.role_id == rid)).map (fun r => r.version)) := by
  induction db with
  | nil => rfl
  | cons r rest ih =>
    by_cases hcond : r.role_id = rid ∧ r.version ≠ nv
    · simp only [List.map_cons, if_pos hcond, List.filter_cons]
      have : (({ r with is_active := "N" } : RolePrompt).role_id == rid) = true := by
        simp [hcond.1]
      simp only [this, if_pos, List.map_cons]
      have hr : (r.role_id == rid) = true := by simp [hcond.1]
      simp [hr, ih]
    · simp only [List.map_cons, if_neg hcond, List.filter_cons]
      by_cases hr : (r.role_id == rid) = true
      · simp [hr, ih]
      · simp [hr, ih]

theorem get_latest_append_map (db : List RolePrompt) (row : RolePrompt)
    (rid nv : ℤ) (hrole : row.role_id = rid) (hv : row.version = nv)
    (hgt : ∀ r ∈ db, r.role_id = rid → r.version < nv) :
    _get_latest_version ((db ++ [row]).map (fun r =>
      if r.role_id = rid ∧ r.version ≠ nv then { r with is_active := "N" } else r)) rid
      = some nv := by
  unfold _get_latest_version
  rw [List.map_append, List.filter_append, List.map_append,
    filter_map_deactivate db rid nv]
  have hsing : (List.filter (fun r => r.role_id == rid)
      (List.map (fun r => if r.role_id = rid ∧ r.version ≠ nv
        then { r with is_active := "N" } else r) [row])).map (fun r => r.version)
      = [nv] := by
    simp [hrole, hv]
  rw [hsing]
  apply listMaxZ_append_last
  intro x hx
  obtain ⟨r, hr, hrv⟩ := List.mem_map.1 hx
  have hrole2 : r.role_id = rid := by
    have := (List.mem_filter.1 hr).2
    simpa using this
  have hlt := hgt r (List.mem_of_mem_filter hr) hrole2
  omega

theorem mem_append_map_deact (db : List RolePrompt) (row : RolePrompt)
    (rid nv : ℤ) (hrole : row.role_id = rid) (hv : row.version = nv) :
    row ∈ (db ++ [row]).map (fun r =>
      if r.role_id = rid ∧ r.version ≠ nv then { r with is_active := "N" } else r) := by
  have hself : (if row.role_id = rid ∧ row.version ≠ nv
      then { row with is_active := "N" } else row) = row := by
    rw [if_neg]
    intro hcontra
    exact hcontra.2 hv
  exact List.mem_map.2
    ⟨row, List.mem_append_right db (List.mem_singleton_self row), hself⟩

theorem others_deactivated (db : List RolePrompt) (row : RolePrompt)
    (rid nv : ℤ) (hv : row.version = nv)
    (hgt : ∀ r ∈ db, r.role_id = rid → r.version < nv) :
    ∀ r ∈ (db ++ [row]).map (fun r =>
      if r.role_id = rid ∧ r.version ≠ nv then { r with is_active := "N" } else r),
      r.role_id = rid → r ≠ row → r.is_active = "N" := by
  intro r hr hrole hne
  obtain ⟨r0, hr0, hr0e⟩ := List.mem_map.1 hr
  rcases List.mem_append.1 hr0 with hdb | hrow
  · by_cases hcond : r0.role_id = rid ∧ r0.version ≠ nv
    · rw [if_pos hcond] at hr0e
      rw [← hr0e]
    · rw [if_neg hcond] at hr0e
      subst hr0e
      push_neg at hcond
      have hver := hcond hrole
      have := hgt r0 hdb hrole
      omega
  · rw [List.mem_singleton.1 hrow] at hr0e
    have hself : (if row.role_id = rid ∧ row.version ≠ nv
        then { row with is_active := "N" } else row) = row := by
      rw [if_neg]
      intro hcontra
      exact hcontra.2 hv
    rw [hself] at hr0e
    exact absurd hr0e.symm hne

theorem version_lt_new (db : List RolePrompt) (rid : ℤ) :
    ∀ r ∈ db, r.role_id = rid →
      r.version < pyOrZero (_get_latest_version db rid) + 1 := by
  intro r hr hrole
  obtain ⟨m, hm, hle⟩ := version_le_latest db rid r hr hrole
  rw [pyOrZero_eq_getD, hm]
  simp only [Option.getD_some]
  omega

/-- Specification of `_create_role_prompt` followed by
`_deactivate_old_versions`: the freshly written row carries the role id,
version `max + 1`, `is_active = "Y"`; it is stored; every other stored row of
the role is inactive; and the stored maximum version for the role is now the
new row's version. -/
theorem create_role_prompt_spec (db : List RolePrompt) (rid : ℤ)
    (content : List Char) (tasks : List TaskCreatRolePrompt) (q : ℚ) :
    (_create_role_prompt db rid content tasks q).1.role_id = rid ∧
    (_create_role_prompt db rid content tasks q).1.version =
      (_get_latest_version db rid).getD 0 + 1 ∧
    (_create_role_prompt db rid content tasks q).1.is_active = "Y" ∧
    (_create_role_prompt db rid content tasks q).1 ∈
      (_create_role_prompt db rid content tasks q).2 ∧
    (∀ r ∈ (_create_role_prompt db rid content tasks q).2, r.role_id = rid →
      r ≠ (_create_role_prompt db rid content tasks q).1 → r.is_active = "N") ∧
    _get_latest_version (_create_role_prompt db rid content tasks q).2 rid =
      some ((_get_latest_version db rid).getD 0 + 1) := by
  have hrole : (_create_role_prompt db rid content tasks q).1.role_id = rid := rfl
  have hver : (_create_role_prompt db rid content tasks q).1.version =
      pyOrZero (_get_latest_version db rid) + 1 := rfl
  have hsnd : (_create_role_prompt db rid content tasks q).2 =
      (db ++ [(_create_role_prompt db rid content tasks q).1]).map (fun r =>
        if r.role_id = rid ∧
            r.version ≠ (_create_role_prompt db rid content tasks q).1.version
        then { r with is_active := "N" } else r) := rfl
  have hgt : ∀ r ∈ db, r.role_id = rid →
      r.version < (_create_role_prompt db rid content tasks q).1.version := by
    rw [hver]
    exact version_lt_new db rid
  refine ⟨hrole, by rw [hver, pyOrZero_eq_getD], rfl, ?_, ?_, ?_⟩
  · rw [hsnd]
    exact mem_append_map_deact db _ rid _ hrole rfl
  · rw [hsnd]
    exact others_deactivated db _ rid _ rfl hgt
  · rw [hsnd, get_latest_append_map db _ rid _ hrole rfl hgt, hver, pyOrZero_eq_getD]

/-- A successful aggregation run writes exactly what `_create_role_prompt`
writes, for some content, source tasks and score. -/
theorem aggregate_success_shape (tasks : List TaskCreatRolePrompt)
    (db : List RolePrompt) (rid : ℤ)
    (h : (aggregate_role_results tasks db rid).1.success = true) :
    ∃ content src q, (aggregate_role_results tasks db rid).2 =
      (_create_role_prompt db rid content src q).2 := by
  simp only [aggregate_role_results] at h ⊢
  by_cases c1 : (List.filter (fun t => t.role_id == rid &&
      (t.task_state == "P" || t.task_state == "Q" || t.task_state == "R")) tasks).length ≠ 0
  · rw [if_pos c1] at h
    exact absurd h (by simp)
  · rw [if_neg c1] at h ⊢
    by_cases c2 : (List.filter (fun t => t.role_id == rid && t.task_state == "C" &&
        t.role_item_prompt.isSome) tasks).isEmpty = true
    · rw [if_pos c2] at h
      exact absurd h (by simp)
    · rw [if_neg c2] at h ⊢
      by_cases c3 : validate_quality (remove_duplicates (_aggregate_content
          (List.filter (fun t => t.role_id == rid && t.task_state == "C" &&
            t.role_item_prompt.isSome) tasks))) < 1/2
      · rw [if_pos c3] at h
        exact absurd h (by simp)
      · rw [if_neg c3] at h ⊢
        exact ⟨_, _, _, rfl⟩

/-- C2: a successful aggregation writes a new row whose version is the
maximum existing version for the role plus 1 (1 when none exists), active,
with every other row of the role deactivated, and leaves the role's stored
maximum version at the new row's version; hence two successive successful
aggregations produce strictly increasing versions. -/
theorem C2_versioning :
    (∀ (tasks : List TaskCreatRolePrompt) (db : List RolePrompt) (rid : ℤ),
      (aggregate_role_results tasks db rid).1.success = true →
      ∃ new_row ∈ (aggregate_role_results tasks db rid).2,
        new_row.role_id = rid ∧
        new_row.version = (_get_latest_version db rid).getD 0 + 1 ∧
        new_row.is_active = "Y" ∧
        (∀ r ∈ (aggregate_role_results tasks db rid).2,
          r.role_id = rid → r ≠ new_row → r.is_active = "N") ∧
        _get_latest_version (aggregate_role_results tasks db rid).2 rid =
          some new_row.version) ∧
    (∀ (tasks1 tasks2 : List TaskCreatRolePrompt) (db : List RolePrompt) (rid : ℤ),
      (aggregate_role_results tasks1 db rid).1.success = true →
      (aggregate_role_results tasks2
        (aggregate_role_results tasks1 db rid).2 rid).1.success = true →
      (_get_latest_version db rid).getD 0 + 1 <
        (_get_latest_version (aggregate_role_results tasks1 db rid).2 rid).getD 0 + 1) := by
  have hmain : ∀ (tasks : List TaskCreatRolePrompt) (db : List RolePrompt) (rid : ℤ),
      (aggregate_role_results tasks db rid).1.success = true →
      ∃ new_row ∈ (aggregate_role_results tasks db rid).2,
        new_row.role_id = rid ∧
        new_row.version = (_get_latest_version db rid).getD 0 + 1 ∧
        new_row.is_active = "Y" ∧
        (∀ r ∈ (aggregate_role_results tasks db rid).2,
          r.role_id = rid → r ≠ new_row → r.is_active = "N") ∧
        _get_latest_version (aggregate_role_results tasks db rid).2 rid =
          some new_row.version := by
    intro tasks db rid h
    obtain ⟨content, src, q, hdb⟩ := aggregate_success_shape tasks db rid h
    obtain ⟨h1, h2, h3, h4, h5, h6⟩ := create_role_prompt_spec db rid content src q
    refine ⟨(_create_role_prompt db rid content src q).1, ?_, h1, h2, h3, ?_, ?_⟩
    · rw [hdb]
      exact h4
    · rw [hdb]
      exact h5
    · rw [hdb, h6, h2]
  refine ⟨hmain, ?_⟩
  intro tasks1 tasks2 db rid h1 h2
  obtain ⟨row1, _, _, hv1, _, _, hmax1⟩ := hmain tasks1 db rid h1
  rw [hmax1]
  simp only [Option.getD_some]
  omega

/-- Witness for C2: the versioning specification applied to the concrete
successful run of the 20-character scenario, its success hypothesis
discharged by the evaluated run. -/
theorem C2_versioning_witness :
    ∃ new_row ∈ (aggregate_role_results [task20] [] 7).2,
      new_row.role_id = 7 ∧
      new_row.version = (_get_latest_version [] 7).getD 0 + 1 ∧
      new_row.is_active = "Y" ∧
      (∀ r ∈ (aggregate_role_results [task20] [] 7).2,
        r.role_id = 7 → r ≠ new_row → r.is_active = "N") ∧
      _get_latest_version (aggregate_role_results [task20] [] 7).2 7 =
        some new_row.version :=
  C2_versioning.1 [task20] [] 7 aggregate20_eval.1

/-!
Circuit breaker state machine (claim C3).
-/

theorem record_failure_count (b : CircuitBreaker) (times : List ℤ) :
    (times.foldl (fun st t => st.record_failure t) b).failure_count =
      b.failure_count + times.length := by
  induction times generalizing b with
  | nil => simp
  | cons t rest ih =>
    rw [List.foldl_cons, ih]
    simp only [CircuitBreaker.record_failure, List.length_cons]
    omega

theorem record_failure_threshold (b : CircuitBreaker) (times : List ℤ) :
    (times.foldl (fun st t => st.record_failure t) b).failure_threshold =
      b.failure_threshold := by
  induction times generalizing b with
  | nil => rfl
  | cons t rest ih =>
    rw [List.foldl_cons, ih]
    rfl

theorem record_failure_state (st : CircuitBreaker) (t : ℤ) :
    (st.record_failure t).state =
      if st.failure_threshold ≤ st.failure_count + 1 then .OPEN else st.state := rfl

theorem record_failure_run_opens (b : CircuitBreaker) (times : List ℤ)
    (hlen : b.failure_threshold ≤ times.length) (hne : times ≠ []) :
    (times.foldl (fun st t => st.record_failure t) b).state = .OPEN := by
  rcases List.eq_nil_or_concat times with rfl | ⟨xs, x, rfl⟩
  · exact absurd rfl hne
  rw [List.concat_eq_append] at hlen ⊢
  rw [List.foldl_append, List.foldl_cons, List.foldl_nil]
  have hcount := record_failure_count b xs
  have hthr := record_failure_threshold b xs
  rw [List.length_append] at hlen
  simp only [List.length_singleton] at hlen
  rw [record_failure_state, if_pos]
  rw [hthr, hcount]
  omega

/-- C3 (amended): a run of `failure_threshold` consecutive recorded failures
(from any starting state, with the configured threshold at least 1) opens the
breaker; while OPEN and at most `timeout` seconds have elapsed since the last
failure, every `call_generate_api` invocation without a configured cache fails
fast with `CIRCUIT_BREAKER_OPEN`, leaving the breaker OPEN and the rate
limiter untouched; once STRICTLY more than `timeout` seconds have elapsed, the
next admission check reports the breaker closed and transitions it to
HALF_OPEN, and the call is admitted (its outcome is the provider outcome);
and one recorded success in any state resets the failure count to 0 and sets
the state to CLOSED. -/
theorem C3_circuit_breaker :
    (∀ (b : CircuitBreaker) (times : List ℤ),
      times.length = b.failure_threshold → 1 ≤ b.failure_threshold →
      (times.foldl (fun st t => st.record_failure t) b).state = .OPEN) ∧
    (∀ (client : ExternalApiClient) (task_id : ℤ) (command : String) (δ : ℕ)
        (api_result : ApiResponse) (lf : ℤ),
      client.cache = none →
      client.circuit_breaker.state = .OPEN →
      client.circuit_breaker.last_failure_time = some lf →
      client.now + (δ : ℤ) - lf ≤ client.circuit_breaker.timeout →
      (call_generate_api client task_id command δ api_result).2.success = false ∧
      (call_generate_api client task_id command δ api_result).2.error_code =
        some "CIRCUIT_BREAKER_OPEN" ∧
      (call_generate_api client task_id command δ api_result).1.circuit_breaker.state = .OPEN ∧
      (call_generate_api client task_id command δ api_result).1.rate_limiter =
        client.rate_limiter) ∧
    (∀ (b : CircuitBreaker) (now lf : ℤ),
      b.state = .OPEN → b.last_failure_time = some lf → b.timeout < now - lf →
      (b.is_open now).1 = false ∧ (b.is_open now).2.state = .HALF_OPEN) ∧
    (∀ (client : ExternalApiClient) (task_id : ℤ) (command : String) (δ : ℕ)
        (api_result : ApiResponse) (lf : ℤ),
      client.cache = none →
      client.circuit_breaker.state = .OPEN →
      client.circuit_breaker.last_failure_time = some lf →
      client.circuit_breaker.timeout < client.now + (δ : ℤ) - lf →
      (call_generate_api client task_id command δ api_result).2.success =
        api_result.success ∧
      (call_generate_api client task_id command δ api_result).2.data = api_result.data) ∧
    (∀ b : CircuitBreaker,
      b.record_success.failure_count = 0 ∧ b.record_success.state = .CLOSED) := by
  have hopen_le : ∀ (b : CircuitBreaker) (now lf : ℤ),
      b.state = .OPEN → b.last_failure_time = some lf → now - lf ≤ b.timeout →
      b.is_open now = (true, b) := by
    intro b now lf hstate hlf hle
    simp only [CircuitBreaker.is_open, hstate, hlf, if_true]
    rw [if_neg (by omega)]
  have hopen_gt : ∀ (b : CircuitBreaker) (now lf : ℤ),
      b.state = .OPEN → b.last_failure_time = some lf → b.timeout < now - lf →
      b.is_open now = (false, { b with state := .HALF_OPEN }) := by
    intro b now lf hstate hlf hgt
    simp only [CircuitBreaker.is_open, hstate, hlf, if_true]
    rw [if_pos hgt]
  refine ⟨?_, ?_, ?_, ?_, ?_⟩
  · intro b times hlen hthr
    apply record_failure_run_opens b times (le_of_eq hlen.symm)
    intro hnil
    rw [hnil] at hlen
    simp only [List.length_nil] at hlen
    omega
  · intro client task_id command δ api_result lf hcache hstate hlf hle
    have hlook : cacheLookup client task_id command (client.now + (δ : ℤ)) = none := by
      unfold cacheLookup
      rw [hcache]
    have hio := hopen_le client.circuit_breaker (client.now + (δ : ℤ)) lf hstate hlf hle
    simp only [call_generate_api, hlook, hio]
    exact ⟨rfl, rfl, hstate, rfl⟩
  · intro b now lf hstate hlf hgt
    rw [hopen_gt b now lf hstate hlf hgt]
    exact ⟨rfl, rfl⟩
  · intro client task_id command δ api_result lf hcache hstate hlf hgt
    have hlook : cacheLookup client task_id command (client.now + (δ : ℤ)) = none := by
      unfold cacheLookup
      rw [hcache]
    have hio := hopen_gt client.circuit_breaker (client.now + (δ : ℤ)) lf hstate hlf hgt
    simp only [call_generate_api, hlook, hio, Bool.false_eq_true, if_false]
    by_cases hsucc : api_result.success = true <;>
      simp [hsucc]
  · intro b
    exact ⟨rfl, rfl⟩

/-- Counterexample to C3 as stated: with `failure_threshold = 1` and
`timeout = 60`, one failure recorded at time 0 opens the breaker; at time 60,
exactly `timeout` seconds have elapsed since the last failure, yet the
admission check still reports the breaker open and leaves it OPEN (the code
requires strictly more than `timeout` seconds), contradicting the claim that
the check transitions to HALF_OPEN and admits the caller once timeout seconds
have elapsed. -/
theorem C3_circuit_breaker_counterexample :
    ((CircuitBreaker.record_failure
      ⟨1, 60, 0, none, .CLOSED⟩ 0).is_open 60).1 = true ∧
    ((CircuitBreaker.record_failure
      ⟨1, 60, 0, none, .CLOSED⟩ 0).is_open 60).2.state = .OPEN := by
  decide

/-- Witness for C3: the fail-fast and the transition conjuncts applied to a
concrete breaker (threshold 1, timeout 60, failure at time 0) at times 60 and
61, hypotheses discharged by computation. -/
theorem C3_circuit_breaker_witness :
    ((call_generate_api
        ⟨⟨60, []⟩, CircuitBreaker.record_failure ⟨1, 60, 0, none, .CLOSED⟩ 0, none, 0⟩
        5 "cmd" 60 ⟨true, none, none, none, 0, 0, none⟩).2.error_code =
      some "CIRCUIT_BREAKER_OPEN") ∧
    (((CircuitBreaker.record_failure ⟨1, 60, 0, none, .CLOSED⟩ 0).is_open 61).1 = false ∧
     ((CircuitBreaker.record_failure ⟨1, 60, 0, none, .CLOSED⟩ 0).is_open 61).2.state =
      .HALF_OPEN) ∧
    ((CircuitBreaker.record_failure ⟨1, 60, 0, none, .CLOSED⟩ 0).record_success.failure_count
      = 0) :=
  ⟨(C3_circuit_breaker.2.1
      ⟨⟨60, []⟩, CircuitBreaker.record_failure ⟨1, 60, 0, none, .CLOSED⟩ 0, none, 0⟩
      5 "cmd" 60 ⟨true, none, none, none, 0, 0, none⟩ 0 rfl (by decide) (by decide)
      (by decide)).2.1,
   C3_circuit_breaker.2.2.1 (CircuitBreaker.record_failure ⟨1, 60, 0, none, .CLOSED⟩ 0)
      61 0 (by decide) (by decide) (by decide),
   (C3_circuit_breaker.2.2.2.2 (CircuitBreaker.record_failure ⟨1, 60, 0, none, .CLOSED⟩ 0)).1⟩

/-!
Rate limiter sliding window (claim C4).
-/

theorem listMinZ_mem (l : List ℤ) (m : ℤ) (h : listMinZ l = some m) : m ∈ l := by
  induction l generalizing m with
  | nil => exact absurd h (by simp [listMinZ])
  | cons x rest ih =>
    cases h2 : listMinZ rest with
    | none =>
      rw [show listMinZ (x :: rest) = some x by simp [listMinZ, h2]] at h
      rw [← Option.some.inj h]
      exact List.mem_cons_self x rest
    | some m2 =>
      rw [show listMinZ (x :: rest) = some (min x m2) by simp [listMinZ, h2]] at h
      rw [← Option.some.inj h]
      rcases min_cases x m2 with ⟨he, _⟩ | ⟨he, _⟩
      · rw [he]
        exact List.mem_cons_self x rest
      · rw [he]
        exact List.mem_cons_of_mem x (ih m2 h2)

theorem listMinZ_le_all (l : List ℤ) (m : ℤ) (h : listMinZ l = some m) :
    ∀ x ∈ l, m ≤ x := by
  induction l generalizing m with
  | nil => exact absurd h (by simp [listMinZ])
  | cons y rest ih =>
    intro x hx
    cases h2 : listMinZ rest with
    | none =>
      cases rest with
      | nil =>
        rw [show listMinZ [y] = some y from rfl] at h
        rw [← Option.some.inj h]
        rcases List.mem_cons.1 hx with rfl | hx2
        · exact le_refl x
        · exact absurd hx2 (List.not_mem_nil x)
      | cons z rest2 =>
        exact absurd h2 (by
          cases h3 : listMinZ rest2 <;> simp [listMinZ, h3])
    | some m2 =>
      rw [show listMinZ (y :: rest) = some (min y m2) by simp [listMinZ, h2]] at h
      rw [← Option.some.inj h]
      rcases List.mem_cons.1 hx with rfl | hx2
      · exact min_le_left x m2
      · exact le_trans (min_le_right y m2) (ih m2 h2 x hx2)

theorem listMinZ_isSome_of_ne_nil (l : List ℤ) (h : l ≠ []) :
    ∃ m, listMinZ l = some m := by
  cases l with
  | nil => exact absurd rfl h
  | cons x rest =>
    cases h2 : listMinZ rest with
    | none => exact ⟨x, by simp [listMinZ, h2]⟩
    | some m => exact ⟨min x m, by simp [listMinZ, h2]⟩

theorem filter_length_mono {α : Type} (l : List α) (p q : α → Bool)
    (h : ∀ y ∈ l, p y = true → q y = true) :
    (l.filter p).length ≤ (l.filter q).length := by
  induction l with
  | nil => exact le_refl 0
  | cons a rest ih =>
    have ihr := ih (fun y hy => h y (List.mem_cons_of_mem a hy))
    by_cases hp : p a = true
    · have hq := h a (List.mem_cons_self a rest) hp
      simp [List.filter_cons, hp, hq]
      omega
    · simp only [List.filter_cons]
      rw [if_neg (by simpa using hp)]
      by_cases hq : q a = true
      · rw [if_pos (by simpa using hq)]
        simp only [List.length_cons]
        omega
      · rw [if_neg (by simpa using hq)]
        exact ihr

theorem purge_purge (l : List ℤ) (now now2 : ℤ) (h : now ≤ now2) :
    purgeOld now2 (purgeOld now l) = purgeOld now2 l := by
  unfold purgeOld
  rw [List.filter_filter]
  apply List.filter_congr
  intro t _
  by_cases h2 : now2 - t < 60
  · have h3 : now - t < 60 := by omega
    simp [h2, h3]
  · simp [h2]

theorem windowCount_append (hist : List ℤ) (a x : ℤ) :
    windowCount (hist ++ [a]) x =
      windowCount hist x + (if x - 60 < a ∧ a ≤ x then 1 else 0) := by
  unfold windowCount
  rw [List.filter_append, List.length_append]
  congr 1
  by_cases h1 : x - 60 < a
  · by_cases h2 : a ≤ x
    · simp [List.filter_cons, h1, h2]
    · simp [List.filter_cons, h1, h2]
  · simp [List.filter_cons, h1]

theorem windowCount_le_purge (hist : List ℤ) (a x : ℤ) (ha : a ≤ x)
    (hhist : ∀ t ∈ hist, t ≤ a) :
    windowCount hist x ≤ (purgeOld a hist).length := by
  unfold windowCount purgeOld
  apply filter_length_mono
  intro y hy hwnd
  simp only [Bool.and_eq_true, decide_eq_true_eq] at hwnd
  simp only [decide_eq_true_eq]
  omega

theorem acquire_under_capacity (rl : RateLimiter) (now : ℤ)
    (h : (purgeOld now rl.requests).length < rl.max_requests) :
    rl.acquire now = ({ rl with requests := purgeOld now rl.requests ++ [now] }, now) := by
  unfold RateLimiter.acquire
  rw [if_neg (by omega)]

theorem acquire_at_capacity (rl : RateLimiter) (now m : ℤ)
    (h : rl.max_requests ≤ (purgeOld now rl.requests).length)
    (hm : listMinZ (purgeOld now rl.requests) = some m) :
    rl.acquire now =
      ({ rl with requests := purgeOld (now + (60 - (now - m) + 1)) (purgeOld now rl.requests)
          ++ [now + (60 - (now - m) + 1)] }, now + (60 - (now - m) + 1)) := by
  unfold RateLimiter.acquire
  rw [if_pos h]
  simp only [hm]

theorem limiterStep_inv (N : ℕ) (hN : 1 ≤ N) (s : LimiterRun)
    (hmax : s.limiter.max_requests = N)
    (hreq : s.limiter.requests = purgeOld s.now s.hist)
    (hlen : s.limiter.requests.length ≤ N)
    (hhist : ∀ t ∈ s.hist, t ≤ s.now)
    (hwnd : ∀ x, windowCount s.hist x ≤ N) (δ : ℕ) :
    (limiterStep s δ).limiter.max_requests = N ∧
    (limiterStep s δ).limiter.requests =
      purgeOld (limiterStep s δ).now (limiterStep s δ).hist ∧
    (limiterStep s δ).limiter.requests.length ≤ N ∧
    (∀ t ∈ (limiterStep s δ).hist, t ≤ (limiterStep s δ).now) ∧
    (∀ x, windowCount (limiterStep s δ).hist x ≤ N) := by
  have hnow_le : s.now ≤ s.now + (δ : ℤ) := by omega
  have hpp : purgeOld (s.now + (δ : ℤ)) s.limiter.requests =
      purgeOld (s.now + (δ : ℤ)) s.hist := by
    rw [hreq, purge_purge s.hist s.now (s.now + (δ : ℤ)) hnow_le]
  have hpurged_le : (purgeOld (s.now + (δ : ℤ)) s.limiter.requests).length ≤ N := by
    calc (purgeOld (s.now + (δ : ℤ)) s.limiter.requests).length
        ≤ s.limiter.requests.length := List.length_filter_le _ _
      _ ≤ N := hlen
  by_cases hcap : N ≤ (purgeOld (s.now + (δ : ℤ)) s.limiter.requests).length
  · -- window at capacity: the caller sleeps and re-purges
    have hne : purgeOld (s.now + (δ : ℤ)) s.limiter.requests ≠ [] := by
      intro hnil
      rw [hnil] at hcap
      simp only [List.length_nil] at hcap
      omega
    obtain ⟨m, hm⟩ := listMinZ_isSome_of_ne_nil _ hne
    have hmmem := listMinZ_mem _ m hm
    have hmwnd : (s.now + (δ : ℤ)) - m < 60 := by
      have := List.of_mem_filter hmmem
      simpa using this
    have hstep : limiterStep s δ =
        { limiter := { s.limiter with
            requests := purgeOld ((s.now + (δ : ℤ)) + (60 - ((s.now + (δ : ℤ)) - m) + 1))
                (purgeOld (s.now + (δ : ℤ)) s.limiter.requests)
              ++ [(s.now + (δ : ℤ)) + (60 - ((s.now + (δ : ℤ)) - m) + 1)] },
          hist := s.hist ++ [(s.now + (δ : ℤ)) + (60 - ((s.now + (δ : ℤ)) - m) + 1)],
          now := (s.now + (δ : ℤ)) + (60 - ((s.now + (δ : ℤ)) - m) + 1) } := by
      simp only [limiterStep]
      rw [acquire_at_capacity s.limiter (s.now + (δ : ℤ)) m (hmax ▸ hcap) hm]
    have ha_eq : (s.now + (δ : ℤ)) + (60 - ((s.now + (δ : ℤ)) - m) + 1) = m + 61 := by
      ring
    have ht_lt : s.now + (δ : ℤ) < m + 61 := by omega
    have hshrunk : (purgeOld (m + 61) (purgeOld (s.now + (δ : ℤ)) s.limiter.requests)).length
        < (purgeOld (s.now + (δ : ℤ)) s.limiter.requests).length := by
      apply List.length_filter_lt_length_iff_exists.2
      refine ⟨m, hmmem, ?_⟩
      simp only [decide_eq_true_eq]
      omega
    rw [hstep]
    rw [ha_eq]
    dsimp only
    refine ⟨hmax, ?_, ?_, ?_, ?_⟩
    · show purgeOld (m + 61) (purgeOld (s.now + (δ : ℤ)) s.limiter.requests) ++ [m + 61] =
        purgeOld (m + 61) (s.hist ++ [m + 61])
      unfold purgeOld
      rw [List.filter_append]
      rw [show List.filter (fun t => decide (m + 61 - t < 60)) [m + 61] = [m + 61] by
        simp]
      rw [← purgeOld, ← purgeOld, hpp,
        purge_purge s.hist (s.now + (δ : ℤ)) (m + 61) (le_of_lt ht_lt)]
      rfl
    · show (purgeOld (m + 61) (purgeOld (s.now + (δ : ℤ)) s.limiter.requests)
        ++ [m + 61]).length ≤ N
      rw [List.length_append]
      simp only [List.length_singleton]
      omega
    · intro t ht
      rcases List.mem_append.1 ht with ht2 | ht2
      · have := hhist t ht2
        omega
      · rw [List.mem_singleton.1 ht2]
    · intro x
      rw [windowCount_append]
      by_cases hin : x - 60 < m + 61 ∧ m + 61 ≤ x
      · rw [if_pos hin]
        have hcount : windowCount s.hist x ≤
            (purgeOld (m + 61) s.hist).length := by
          apply windowCount_le_purge s.hist (m + 61) x hin.2
          intro t ht
          have := hhist t ht
          omega
        have hpe : purgeOld (m + 61) s.hist =
            purgeOld (m + 61) (purgeOld (s.now + (δ : ℤ)) s.limiter.requests) := by
          rw [hpp, purge_purge s.hist (s.now + (δ : ℤ)) (m + 61) (le_of_lt ht_lt)]
        rw [hpe] at hcount
        omega
      · rw [if_neg hin]
        have := hwnd x
        omega
  · -- window under capacity: admit immediately
    have hstep : limiterStep s δ =
        { limiter := { s.limiter with
            requests := purgeOld (s.now + (δ : ℤ)) s.limiter.requests ++ [s.now + (δ : ℤ)] },
          hist := s.hist ++ [s.now + (δ : ℤ)],
          now := s.now + (δ : ℤ) } := by
      simp only [limiterStep]
      rw [acquire_under_capacity s.limiter (s.now + (δ : ℤ)) (by omega)]
    rw [hstep]
    dsimp only
    refine ⟨hmax, ?_, ?_, ?_, ?_⟩
    · show purgeOld (s.now + (δ : ℤ)) s.limiter.requests ++ [s.now + (δ : ℤ)] =
        purgeOld (s.now + (δ : ℤ)) (s.hist ++ [s.now + (δ : ℤ)])
      unfold purgeOld
      rw [List.filter_append]
      rw [show List.filter (fun t => decide (s.now + (δ : ℤ) - t < 60)) [s.now + (δ : ℤ)]
          = [s.now + (δ : ℤ)] by simp]
      rw [← purgeOld, ← purgeOld, hpp]
    · show (purgeOld (s.now + (δ : ℤ)) s.limiter.requests ++ [s.now + (δ : ℤ)]).length ≤ N
      rw [List.length_append]
      simp only [List.length_singleton]
      omega
    · intro t ht
      rcases List.mem_append.1 ht with ht2 | ht2
      · have := hhist t ht2
        omega
      · rw [List.mem_singleton.1 ht2]
    · intro x
      rw [windowCount_append]
      by_cases hin : x - 60 < s.now + (δ : ℤ) ∧ s.now + (δ : ℤ) ≤ x
      · rw [if_pos hin]
        have hcount : windowCount s.hist x ≤
            (purgeOld (s.now + (δ : ℤ)) s.hist).length := by
          apply windowCount_le_purge s.hist (s.now + (δ : ℤ)) x hin.2
          intro t ht
          have := hhist t ht
          omega
        rw [← hpp] at hcount
        omega
      · rw [if_neg hin]
        have := hwnd x
        omega

theorem limiterRun_inv (N : ℕ) (hN : 1 ≤ N) (deltas : List ℕ) :
    (limiterRun N deltas).limiter.max_requests = N ∧
    (limiterRun N deltas).limiter.requests =
      purgeOld (limiterRun N deltas).now (limiterRun N deltas).hist ∧
    (limiterRun N deltas).limiter.requests.length ≤ N ∧
    (∀ t ∈ (limiterRun N deltas).hist, t ≤ (limiterRun N deltas).now) ∧
    (∀ x, windowCount (limiterRun N deltas).hist x ≤ N) := by
  have hgen : ∀ (ds : List ℕ) (s : LimiterRun),
      s.limiter.max_requests = N →
      s.limiter.requests = purgeOld s.now s.hist →
      s.limiter.requests.length ≤ N →
      (∀ t ∈ s.hist, t ≤ s.now) →
      (∀ x, windowCount s.hist x ≤ N) →
      (ds.foldl limiterStep s).limiter.max_requests = N ∧
      (ds.foldl limiterStep s).limiter.requests =
        purgeOld (ds.foldl limiterStep s).now (ds.foldl limiterStep s).hist ∧
      (ds.foldl limiterStep s).limiter.requests.length ≤ N ∧
      (∀ t ∈ (ds.foldl limiterStep s).hist, t ≤ (ds.foldl limiterStep s).now) ∧
      (∀ x, windowCount (ds.foldl limiterStep s).hist x ≤ N) := by
    intro ds
    induction ds with
    | nil => exact fun s h1 h2 h3 h4 h5 => ⟨h1, h2, h3, h4, h5⟩
    | cons d rest ih =>
      intro s h1 h2 h3 h4 h5
      rw [List.foldl_cons]
      obtain ⟨g1, g2, g3, g4, g5⟩ := limiterStep_inv N hN s h1 h2 h3 h4 h5 d
      exact ih (limiterStep s d) g1 g2 g3 g4 g5
  exact hgen deltas { limiter := { max_requests := N, requests := [] }, hist := [], now := 0 }
    rfl rfl (by simp) (by simp) (fun x => by simp [windowCount])

/-- C4: on each acquisition the window is purged of entries at least 60
seconds old; a call finding the purged window below capacity records its own
timestamp at the current time; a call finding it at capacity sleeps exactly
`60 - (now - oldest) + 1` seconds, re-purges, and only then records its own
timestamp; and for any capacity `N ≥ 1` and any sequence of acquisitions, no
trailing 60-second interval `(x - 60, x]` ever contains more than `N`
admissions. -/
theorem C4_rate_limiter :
    (∀ (rl : RateLimiter) (now : ℤ),
      (purgeOld now rl.requests).length < rl.max_requests →
      (rl.acquire now).2 = now ∧
      (rl.acquire now).1.requests = purgeOld now rl.requests ++ [now]) ∧
    (∀ (rl : RateLimiter) (now m : ℤ),
      rl.max_requests ≤ (purgeOld now rl.requests).length →
      listMinZ (purgeOld now rl.requests) = some m →
      (rl.acquire now).2 = now + (60 - (now - m) + 1) ∧
      (rl.acquire now).1.requests =
        purgeOld (now + (60 - (now - m) + 1)) (purgeOld now rl.requests)
          ++ [now + (60 - (now - m) + 1)]) ∧
    (∀ (N : ℕ) (deltas : List ℕ) (x : ℤ), 1 ≤ N →
      windowCount (limiterRun N deltas).hist x ≤ N) := by
  refine ⟨?_, ?_, ?_⟩
  · intro rl now h
    rw [acquire_under_capacity rl now h]
    exact ⟨rfl, rfl⟩
  · intro rl now m h hm
    rw [acquire_at_capacity rl now m h hm]
    exact ⟨rfl, rfl⟩
  · intro N deltas x hN
    exact (limiterRun_inv N hN deltas).2.2.2.2 x

/-- Witness for C4: with capacity 1 and two back-to-back acquisitions, the
second caller finds the window full (oldest timestamp 0) and is delayed to
time 61; every trailing 60-second window of the run's admission history
(admissions at 0 and 61) holds at most one admission. -/
theorem C4_rate_limiter_witness :
    ((RateLimiter.acquire ⟨1, [0]⟩ 0).2 = 0 + (60 - (0 - 0) + 1) ∧
     (RateLimiter.acquire ⟨1, [0]⟩ 0).1.requests =
       purgeOld (0 + (60 - (0 - 0) + 1)) (purgeOld 0 [0]) ++ [0 + (60 - (0 - 0) + 1)]) ∧
    windowCount (limiterRun 1 [0, 0]).hist 61 ≤ 1 ∧
    (limiterRun 1 [0, 0]).hist = [0, 61] :=
  ⟨C4_rate_limiter.2.1 ⟨1, [0]⟩ 0 0 (by decide) (by decide),
   C4_rate_limiter.2.2 1 [0, 0] 61 (by decide),
   by decide⟩

/-!
Batch progress and success-rate arithmetic (claim C7).
-/

theorem refresh_stat_step_success_rate (acc : BatchExecution × ℚ × ℕ)
    (stat : TaskState × ℕ × Option ℚ) :
    (_refresh_stat_step acc stat).1.success_rate = acc.1.success_rate := by
  obtain ⟨state, count, avg⟩ := stat
  cases state <;> try rfl
  cases avg with
  | none => rfl
  | some d =>
    simp only [_refresh_stat_step]
    split_ifs <;> rfl

theorem refresh_fold_success_rate (stats : List (TaskState × ℕ × Option ℚ))
    (acc : BatchExecution × ℚ × ℕ) :
    (stats.foldl _refresh_stat_step acc).1.success_rate = acc.1.success_rate := by
  induction stats generalizing acc with
  | nil => rfl
  | cons stat rest ih =>
    rw [List.foldl_cons, ih, refresh_stat_step_success_rate]

set_option maxHeartbeats 1000000 in
/-- The refreshed success rate as one equation: recomputed from the refreshed
counters when some task finished, else left at the incoming batch's value. -/
theorem refresh_success_rate_eq (b : BatchExecution)
    (stats : List (TaskState × ℕ × Option ℚ)) (now : ℤ) :
    (_refresh_batch_statistics b stats now).success_rate =
      if 0 < (_refresh_batch_statistics b stats now).completed_tasks +
          (_refresh_batch_statistics b stats now).failed_tasks then
        ((_refresh_batch_statistics b stats now).completed_tasks : ℚ) /
          (((_refresh_batch_statistics b stats now).completed_tasks +
            (_refresh_batch_statistics b stats now).failed_tasks : ℕ) : ℚ) * 100
      else b.success_rate := by
  have hfold := refresh_fold_success_rate stats ({ b with queued_tasks := 0, running_tasks := 0, completed_tasks := 0, failed_tasks := 0, cancelled_tasks := 0 }, (0 : ℚ), (0 : ℕ))
  simp only [_refresh_batch_statistics]
  generalize hg : stats.foldl _refresh_stat_step ({ b with queued_tasks := 0, running_tasks := 0, completed_tasks := 0, failed_tasks := 0, cancelled_tasks := 0 }, (0 : ℚ), (0 : ℕ)) = st0 at hfold ⊢
  obtain ⟨b1, td, cc⟩ := st0
  dsimp only at hfold ⊢
  by_cases havg : 0 < cc
  · rw [if_pos havg]
    try dsimp only
    by_cases hfin : 0 < b1.completed_tasks + b1.failed_tasks
    · rw [if_pos hfin]
      cases hs : b.started_at with
      | none =>
        try dsimp only
        split_ifs <;> simp [hfin]
      | some s =>
        try dsimp only
        split_ifs <;> simp [hfin]
    · rw [if_neg hfin]
      cases hs : b.started_at with
      | none =>
        try dsimp only
        split_ifs <;> simp [hfin, hfold]
      | some s =>
        try dsimp only
        split_ifs <;> simp [hfin, hfold]
  · rw [if_neg havg]
    try dsimp only
    by_cases hfin : 0 < b1.completed_tasks + b1.failed_tasks
    · rw [if_pos hfin]
      cases hs : b.started_at with
      | none =>
        try dsimp only
        split_ifs <;> simp [hfin]
      | some s =>
        try dsimp only
        split_ifs <;> simp [hfin]
    · rw [if_neg hfin]
      cases hs : b.started_at with
      | none =>
        try dsimp only
        split_ifs <;> simp [hfin, hfold]
      | some s =>
        try dsimp only
        split_ifs <;> simp [hfin, hfold]

/-- C7: `get_progress` is 0 on an empty batch and otherwise the finished
fraction as a percentage; the refreshed success rate is
`completed / (completed + failed) * 100` whenever some task finished and is
left at its prior value otherwise; the claim's concrete batch (10 tasks, 6
completed, 2 failed, none cancelled) has progress 80.0 and refreshed success
rate 75.0. -/
theorem C7_batch_progress :
    (∀ b : BatchExecution, b.total_tasks = 0 → b.get_progress = 0) ∧
    (∀ b : BatchExecution, 0 < b.total_tasks →
      b.get_progress =
        (((b.completed_tasks + b.failed_tasks + b.cancelled_tasks : ℕ) : ℚ) /
          (b.total_tasks : ℚ)) * 100) ∧
    (∀ (b : BatchExecution) (stats : List (TaskState × ℕ × Option ℚ)) (now : ℤ),
      (0 < (_refresh_batch_statistics b stats now).completed_tasks +
          (_refresh_batch_statistics b stats now).failed_tasks →
        (_refresh_batch_statistics b stats now).success_rate =
          ((_refresh_batch_statistics b stats now).completed_tasks : ℚ) /
            (((_refresh_batch_statistics b stats now).completed_tasks +
              (_refresh_batch_statistics b stats now).failed_tasks : ℕ) : ℚ) * 100) ∧
      ((_refresh_batch_statistics b stats now).completed_tasks +
          (_refresh_batch_statistics b stats now).failed_tasks = 0 →
        (_refresh_batch_statistics b stats now).success_rate = b.success_rate)) ∧
    batch10.get_progress = 80 ∧
    (_refresh_batch_statistics batch10 stats10 0).success_rate = 75 := by
  refine ⟨?_, ?_, ?_, ?_, ?_⟩
  · intro b h
    simp only [BatchExecution.get_progress, if_pos h]
  · intro b h
    simp only [BatchExecution.get_progress]
    rw [if_neg (by omega)]
  · intro b stats now
    constructor
    · intro h
      rw [refresh_success_rate_eq, if_pos h]
    · intro h
      rw [refresh_success_rate_eq, if_neg (by omega)]
  · simp only [BatchExecution.get_progress, batch10]
    norm_num
  · rw [refresh_success_rate_eq]
    rw [show (_refresh_batch_statistics batch10 stats10 0).completed_tasks = 6 from rfl]
    rw [show (_refresh_batch_statistics batch10 stats10 0).failed_tasks = 2 from rfl]
    norm_num

/-- Witness for C7: the success-rate equation applied to the concrete batch
(6 completed + 2 failed > 0), and its progress. -/
theorem C7_batch_progress_witness :
    batch10.get_progress =
      (((batch10.completed_tasks + batch10.failed_tasks + batch10.cancelled_tasks : ℕ) : ℚ) /
        (batch10.total_tasks : ℚ)) * 100 ∧
    (_refresh_batch_statistics batch10 stats10 0).success_rate =
      ((_refresh_batch_statistics batch10 stats10 0).completed_tasks : ℚ) /
        (((_refresh_batch_statistics batch10 stats10 0).completed_tasks +
          (_refresh_batch_statistics batch10 stats10 0).failed_tasks : ℕ) : ℚ) * 100 :=
  ⟨C7_batch_progress.2.1 batch10 (by decide),
   (C7_batch_progress.2.2.1 batch10 stats10 0).1 (by decide)⟩

/-!
Partial update semantics of the roles PATCH route (claim C8).
-/

/-- C8: a successful `update_role` stores, for每 field, the payload value when
the field is present and the prior stored value when it is omitted; nothing
else in the database changes; the claim's concrete request (supply
`create_from`, omit `name`) changes `create_from` and leaves `name` as it
was. -/
theorem C8_partial_update :
    (∀ (db : RolesDb) (role_id : ℤ) (upd : RoleUpdate) (db_role : Role)
        (role : Role) (db2 : RolesDb),
      db.roles.find? (fun r => r.id == role_id) = some db_role →
      update_role db role_id upd = .ok (role, db2) →
      role.name = upd.name.getD db_role.name ∧
      role.create_from = upd.create_from.getD db_role.create_from ∧
      role.has_prompts = upd.has_prompts.getD db_role.has_prompts ∧
      role.ip_id = upd.ip_id.getD db_role.ip_id ∧
      role.id = db_role.id ∧
      db2.roles = db.roles.map (fun r => if r.id = role_id then role else r) ∧
      db2.role_dir_ids = db.role_dir_ids) ∧
    update_role rolesDb0 1 updCreateFrom =
      .ok ({ roleAlice with create_from := some "api".data },
        { rolesDb0 with roles := [{ roleAlice with create_from := some "api".data }] }) ∧
    ({ roleAlice with create_from := some "api".data } : Role).name = roleAlice.name := by
  refine ⟨?_, ?_, rfl⟩
  · intro db role_id upd db_role role db2 hfind h
    simp only [update_role, hfind] at h
    split_ifs at h
    simp only [Except.ok.injEq, Prod.mk.injEq] at h
    obtain ⟨hrole, hdb2⟩ := h
    subst hrole
    refine ⟨rfl, rfl, rfl, rfl, rfl, ?_, ?_⟩
    · rw [← hdb2]
    · rw [← hdb2]
  · rfl

/-- Witness for C8: the frame property applied to the concrete request, its
hypotheses discharged by computing the lookup and the route call. -/
theorem C8_partial_update_witness :
    ({ roleAlice with create_from := some "api".data } : Role).name =
      updCreateFrom.name.getD roleAlice.name ∧
    ({ roleAlice with create_from := some "api".data } : Role).create_from =
      updCreateFrom.create_from.getD roleAlice.create_from := by
  have h := C8_partial_update.1 rolesDb0 1 updCreateFrom roleAlice
    ({ roleAlice with create_from := some "api".data })
    ({ rolesDb0 with roles := [{ roleAlice with create_from := some "api".data }] })
    (by decide) rfl
  exact ⟨h.1, h.2.1⟩

/-!
Merge-category equivalence in the Result Aggregator (claim C9).
-/

theorem smart_fold_eq_combine (its : List CategoryItem) (acc : List (List Char))
    (hnew : ∀ i ∈ its, pyStrip i.content ≠ [] → pyStrip i.content ∉ acc)
    (hnodup : ((its.map (fun i => pyStrip i.content)).filter
      (fun c => decide (c ≠ []))).Nodup) :
    its.foldl (fun contents item =>
      let content := pyStrip item.content
      if content ≠ [] ∧ content ∉ contents then contents ++ [content] else contents) acc =
    its.foldl (fun contents item =>
      let content := pyStrip item.content
      if content ≠ [] then contents ++ [content] else contents) acc := by
  induction its generalizing acc with
  | nil => rfl
  | cons i rest ih =>
    simp only [List.foldl_cons]
    by_cases hc : pyStrip i.content = []
    · rw [show (if pyStrip i.content ≠ [] ∧ pyStrip i.content ∉ acc
          then acc ++ [pyStrip i.content] else acc) = acc from
        if_neg (fun hcon => hcon.1 hc)]
      rw [show (if pyStrip i.content ≠ [] then acc ++ [pyStrip i.content] else acc) = acc from
        if_neg (fun hcon => hcon hc)]
      apply ih acc (fun i2 hi2 => hnew i2 (List.mem_cons_of_mem i hi2))
      have : ((i :: rest).map (fun i => pyStrip i.content)).filter
          (fun c => decide (c ≠ [])) =
          (rest.map (fun i => pyStrip i.content)).filter (fun c => decide (c ≠ [])) := by
        simp [List.filter_cons, hc]
      rw [this] at hnodup
      exact hnodup
    · have hnotin := hnew i (List.mem_cons_self i rest) hc
      rw [if_pos ⟨hc, hnotin⟩, if_pos hc]
      have hfil : ((i :: rest).map (fun i => pyStrip i.content)).filter
          (fun c => decide (c ≠ [])) =
          pyStrip i.content ::
            ((rest.map (fun i => pyStrip i.content)).filter (fun c => decide (c ≠ []))) := by
        simp [List.filter_cons, hc]
      rw [hfil] at hnodup
      rw [List.nodup_cons] at hnodup
      apply ih (acc ++ [pyStrip i.content]) ?_ hnodup.2
      intro i2 hi2 hne2
      rw [List.mem_append, List.mem_singleton]
      push_neg
      refine ⟨hnew i2 (List.mem_cons_of_mem i hi2) hne2, ?_⟩
      intro heq
      apply hnodup.1
      rw [← heq]
      rw [List.mem_filter]
      refine ⟨List.mem_map_of_mem (fun i => pyStrip i.content) hi2, by simpa using hne2⟩

/-- C9 (amended): for items whose (confidence-sorted) non-empty stripped
contents are pairwise distinct, the merge applied under a descriptive category
(技能描述, 人物关系, 详细描述) and the merge applied under any unrecognized
category produce identical output; when exact-duplicate contents are present
the descriptive merge deduplicates them while the default merge keeps them,
so the two call sites are NOT behaviourally identical in general. -/
theorem C9_merge_equivalence :
    ∀ (items : List CategoryItem) (cat1 cat2 : String),
      cat1 ∈ (["技能描述", "人物关系", "详细描述"] : List String) →
      cat2 ∉ (["基本资料", "角色背景", "基础信息"] : List String) →
      cat2 ∉ (["技能描述", "人物关系", "详细描述"] : List String) →
      (((sortByConfidenceDesc items).map (fun i => pyStrip i.content)).filter
        (fun c => decide (c ≠ []))).Nodup →
      _merge_category_content cat1 items = _merge_category_content cat2 items := by
  intro items cat1 cat2 h1 h2 h3 hnodup
  have h1basic : cat1 ∉ (["基本资料", "角色背景", "基础信息"] : List String) := by
    simp only [List.mem_cons, List.mem_singleton] at h1
    rcases h1 with rfl | rfl | rfl | h
    · decide
    · decide
    · decide
    · exact absurd h (List.not_mem_nil cat1)
  have h1desc : cat1 ∈ (["技能描述", "人物关系", "详细描述"] : List String) := h1
  unfold _merge_category_content
  by_cases hlen : items.length = 1
  · rw [if_pos hlen, if_pos hlen]
  · rw [if_neg hlen, if_neg hlen]
    rw [if_neg h1basic, if_pos h1desc, if_neg h2, if_neg h3]
    unfold _smart_merge_descriptions _combine_all_content
    rw [smart_fold_eq_combine (sortByConfidenceDesc items) []
      (fun i _ _ => List.not_mem_nil (pyStrip i.content)) hnodup]

/-- Counterexample to C9 as stated: two items with the same content `abc` and
equal confidence merge to `abc` under the descriptive category 技能描述 (the
deduplicating merge) but to `abc\n\nabc` under the unrecognized category
自定义类别 (no deduplication), so the two paths are not the same function. -/
theorem C9_merge_equivalence_counterexample :
    _merge_category_content "技能描述" itemsDup ≠
      _merge_category_content "自定义类别" itemsDup := by
  have hsort : sortByConfidenceDesc itemsDup = itemsDup := by
    unfold sortByConfidenceDesc sortLe
    simp only [itemsDup, List.foldl_cons, List.foldl_nil, insertLe]
    norm_num
  have h1 : _merge_category_content "技能描述" itemsDup = "abc".data := by
    unfold _merge_category_content
    rw [if_neg (by decide), if_neg (by decide), if_pos (by decide), hsort]
    decide
  have h2 : _merge_category_content "自定义类别" itemsDup =
      ("abc".data ++ ['\n', '\n'] ++ "abc".data) := by
    unfold _merge_category_content
    rw [if_neg (by decide), if_neg (by decide), if_neg (by decide), hsort]
    decide
  rw [h1, h2]
  decide

/-- Witness for C9: the amended equivalence applied to two items with distinct
contents (equal confidences), all hypotheses discharged by computation. -/
theorem C9_merge_equivalence_witness :
    _merge_category_content "技能描述" itemsDistinct =
      _merge_category_content "自定义类别" itemsDistinct := by
  apply C9_merge_equivalence itemsDistinct "技能描述" "自定义类别"
    (by decide) (by decide) (by decide)
  have hsort : sortByConfidenceDesc itemsDistinct = itemsDistinct := by
    unfold sortByConfidenceDesc sortLe
    simp only [itemsDistinct, List.foldl_cons, List.foldl_nil, insertLe]
    norm_num
  rw [hsort]
  decide

/-!
Constant task id in the executor's gateway call (claim C10).
-/

/-- C10: the Single-Task Executor invokes the gateway with the constant
`task_id = 1` regardless of the executing task, so the gateway interaction is
identical for any two tasks with equal prepared commands; consequently, on a
client with a cache, a successful response produced while executing one task
is returned from cache to a later execution of a different task with the same
command (whatever the provider would have answered the second time). -/
theorem C10_executor_constant_task_id :
    (∀ (client : ExternalApiClient) (t1 t2 : TaskCreatRolePrompt) (command : String)
        (δ : ℕ) (api_result : ApiResponse),
      _call_ai_api_enhanced client t1 command δ api_result =
        _call_ai_api_enhanced client t2 command δ api_result) ∧
    (∀ (client : ExternalApiClient) (t : TaskCreatRolePrompt) (command : String)
        (δ : ℕ) (api_result : ApiResponse),
      _call_ai_api_enhanced client t command δ api_result =
        call_generate_api client 1 command δ api_result) ∧
    (∀ (t1 t2 : TaskCreatRolePrompt) (command : String) (d : Option JVal)
        (r2 : ApiResponse),
      (_call_ai_api_enhanced freshClientWithCache t1 command 0
        (successResponse d)).2.data = d ∧
      (_call_ai_api_enhanced (_call_ai_api_enhanced freshClientWithCache t1 command 0
        (successResponse d)).1 t2 command 0 r2).2.data = d) := by
  have hfirst : ∀ (command : String) (d : Option JVal),
      call_generate_api freshClientWithCache 1 command 0 (successResponse d) =
        ({ rate_limiter := { max_requests := 60, requests := [(0 : ℤ)] }, circuit_breaker := { failure_threshold := 5, timeout := 60, failure_count := 0, last_failure_time := none, state := .CLOSED }, cache := some { ttl := 3600, entries := [(_generate_cache_key 1 command, ((3600 : ℤ), { successResponse d with duration := 0 }))] }, now := 0 },
         { successResponse d with duration := 0 }) := by
    intro command d
    rfl
  refine ⟨fun _ _ _ _ _ _ => rfl, fun _ _ _ _ _ => rfl, ?_⟩
  intro t1 t2 command d r2
  constructor
  · show (call_generate_api freshClientWithCache 1 command 0 (successResponse d)).2.data = d
    rw [hfirst]
    rfl
  · show (call_generate_api
      (call_generate_api freshClientWithCache 1 command 0 (successResponse d)).1
      1 command 0 r2).2.data = d
    rw [hfirst]
    simp only [call_generate_api, cacheLookup, RequestCache.get, alookup, if_true]
    rw [if_pos (show (0 : ℤ) + ((0 : ℕ) : ℤ) < (3600 : ℤ) by norm_num)]
    rfl

end FA
